import Mathlib

/-!
# Verification of the Discord↔GitHub synchronisation core (mastra-triage)

A shallow embedding, over `List Char` strings and explicit oracle
environments for the external GitHub/Discord capabilities, of:

* `extractDiscordThreadId`, `createSyncTrackerComment`,
  `parseSyncTrackerComment` (workflows/githubIssueManager/helpers.ts);
* the per-issue sync step `syncIssueMessagesStep` and the batch driver
  `discordSyncWorkflow` (the discord-sync workflow file);
* the follow-up decision step `checkCommentAuthorStep`
  (the github-issue-manager workflow file).

Modelling conventions, stated once here:

* JavaScript strings are `List Char`.
* A JavaScript `Date` is its epoch-millisecond count (`Nat`).
  `Date.prototype.toISOString` is modelled as the canonical decimal
  rendering of that count, and `new Date(s)` on such a string reads the
  count back.  This preserves the properties of the ISO-8601 format the
  verified claims rely on: the rendering is injective, it contains no
  brace, quote, backslash or line-terminator characters, and parsing
  inverts it.  Nothing in the verified code inspects the calendar fields
  of the string.
* `JSON.stringify` / `JSON.parse` are modelled by an executable
  serializer and a fueled recursive-descent parser over a `Json` value
  type; numbers are restricted to (signed) integers, which covers every
  number the codec ever writes (the schema versions 1 and 2).
* JavaScript regular-expression line terminators are modelled as
  `'\n'` and `'\r'`.
-/

namespace Mastra

/-! ## Characters and digit strings -/

/-- Decimal digit test, as in the regex character class `\d`. -/
def isDig (c : Char) : Bool := '0' ≤ c && c ≤ '9'

/-- The decimal digits of `n`, most significant first, onto `acc`. -/
def natCharsAux (n : Nat) (acc : List Char) : List Char :=
  let d := Char.ofNat ('0'.toNat + n % 10)
  if h : n < 10 then d :: acc else natCharsAux (n / 10) (d :: acc)
termination_by n
decreasing_by omega

/-- The decimal rendering of a natural number (as `String(n)` would give). -/
def natChars (n : Nat) : List Char := natCharsAux n []

/-- Numeric value of a digit-character list, most significant first. -/
def digitsVal (ds : List Char) : Nat :=
  ds.foldl (fun a c => a * 10 + (c.toNat - '0'.toNat)) 0

theorem digitChar_isDig (k : Nat) (h : k < 10) :
    isDig (Char.ofNat ('0'.toNat + k)) = true ∧
      (Char.ofNat ('0'.toNat + k)).toNat - '0'.toNat = k := by
  interval_cases k <;> exact ⟨by decide, by decide⟩

theorem natCharsAux_eq_append (n : Nat) :
    ∀ acc, natCharsAux n acc = natChars n ++ acc := by
  induction n using Nat.strongRecOn with
  | ind n ih =>
    intro acc
    by_cases h : n < 10
    · simp [natChars, natCharsAux, h]
    · conv_lhs => rw [natCharsAux]
      conv_rhs => rw [natChars, natCharsAux]
      simp only [dif_neg h]
      rw [ih (n / 10) (by omega), ih (n / 10) (by omega) [_]]
      simp

theorem natChars_step (n : Nat) :
    natChars n = (if n < 10 then [] else natChars (n / 10))
      ++ [Char.ofNat ('0'.toNat + n % 10)] := by
  by_cases h : n < 10
  · simp [natChars, natCharsAux, h]
  · conv_lhs => rw [natChars, natCharsAux]
    simp only [dif_neg h, if_neg h]
    exact natCharsAux_eq_append (n / 10) _

theorem natChars_all_digits (n : Nat) : ∀ c ∈ natChars n, isDig c = true := by
  induction n using Nat.strongRecOn with
  | ind n ih =>
    rw [natChars_step]
    intro c hc
    rcases List.mem_append.mp hc with h | h
    · by_cases h10 : n < 10
      · simp [h10] at h
      · exact ih (n / 10) (by omega) c (by simpa [h10] using h)
    · rcases List.mem_singleton.mp h with rfl
      exact (digitChar_isDig (n % 10) (Nat.mod_lt _ (by omega))).1

theorem natChars_ne_nil (n : Nat) : natChars n ≠ [] := by
  rw [natChars_step]; simp

theorem digitsVal_natChars (n : Nat) : digitsVal (natChars n) = n := by
  induction n using Nat.strongRecOn with
  | ind n ih =>
    rw [natChars_step]
    by_cases h : n < 10
    · simp only [if_pos h, List.nil_append, digitsVal, List.foldl_cons, List.foldl_nil]
      rw [(digitChar_isDig (n % 10) (Nat.mod_lt _ (by omega))).2]
      omega
    · simp only [if_neg h, digitsVal, List.foldl_append, List.foldl_cons, List.foldl_nil]
      have := ih (n / 10) (by omega)
      rw [digitsVal] at this
      rw [this, (digitChar_isDig (n % 10) (Nat.mod_lt _ (by omega))).2]
      omega

/-! ## A model of `JSON.stringify` / `JSON.parse`

Values are restricted to integer numerals (the codec only ever writes the
schema-version integers); every other construct of the JSON grammar is
covered.  The parser is a fueled recursive-descent parser returning
`none` on any input it cannot read back as a value. -/

inductive Json where
  | jnull
  | jbool (b : Bool)
  | jnum (n : Int)
  | jstr (s : List Char)
  | jarr (items : List Json)
  | jobj (fields : List (List Char × Json))
deriving Repr

/-- Lower-case hex digit character for a nibble. -/
def hexDigit (n : Nat) : Char :=
  if n < 10 then Char.ofNat ('0'.toNat + n) else Char.ofNat ('a'.toNat + n - 10)

/-- `JSON.stringify` escaping of one character inside a string literal. -/
def escChar (c : Char) : List Char :=
  if c = '"' then ['\\', '"']
  else if c = '\\' then ['\\', '\\']
  else if c = '\n' then ['\\', 'n']
  else if c = '\r' then ['\\', 'r']
  else if c = '\t' then ['\\', 't']
  else if c = Char.ofNat 8 then ['\\', 'b']
  else if c = Char.ofNat 12 then ['\\', 'f']
  else if c.toNat < 32 then
    ['\\', 'u', '0', '0', hexDigit (c.toNat / 16), hexDigit (c.toNat % 16)]
  else [c]

/-- `JSON.stringify` escaping of a whole string body. -/
def escStr : List Char → List Char
  | [] => []
  | c :: t => escChar c ++ escStr t

/-- Characters of an integer numeral: optional minus sign, then digits. -/
def intChars (n : Int) : List Char :=
  (if n < 0 then ['-'] else []) ++ natChars n.natAbs

mutual

/-- Serialization of a JSON value, exactly as `JSON.stringify` lays it out
(no whitespace, fields in insertion order). -/
def jrender : Json → List Char
  | .jnull => ['n', 'u', 'l', 'l']
  | .jbool true => ['t', 'r', 'u', 'e']
  | .jbool false => ['f', 'a', 'l', 's', 'e']
  | .jnum n => intChars n
  | .jstr s => '"' :: (escStr s ++ ['"'])
  | .jarr items => '[' :: (jrenderItems items ++ [']'])
  | .jobj fields => '{' :: (jrenderFields fields ++ ['}'])

/-- Comma-separated serialization of array elements. -/
def jrenderItems : List Json → List Char
  | [] => []
  | [x] => jrender x
  | x :: y :: xs => jrender x ++ ',' :: jrenderItems (y :: xs)

/-- Comma-separated serialization of `"key":value` members. -/
def jrenderFields : List (List Char × Json) → List Char
  | [] => []
  | [(k, v)] => '"' :: (escStr k ++ '"' :: ':' :: jrender v)
  | (k, v) :: f :: fs =>
      '"' :: (escStr k ++ '"' :: ':' :: (jrender v ++ ',' :: jrenderFields (f :: fs)))

end

/-- Whitespace skipping, as `JSON.parse` allows between tokens. -/
def dropWs : List Char → List Char
  | c :: t => if c = ' ' ∨ c = '\n' ∨ c = '\t' ∨ c = '\r' then dropWs t else c :: t
  | [] => []

/-- The maximal leading digit run of the input, and what follows it. -/
def grabDigits : List Char → List Char × List Char
  | c :: t =>
      if isDig c then
        let (ds, r) := grabDigits t
        (c :: ds, r)
      else ([], c :: t)
  | [] => ([], [])

/-- Value of a one-character JSON escape. -/
def unesc1 : Char → Option Char
  | 't' => some '\t'
  | 'n' => some '\n'
  | 'b' => some (Char.ofNat 8)
  | 'r' => some '\r'
  | 'f' => some (Char.ofNat 12)
  | '"' => some '"'
  | '/' => some '/'
  | '\\' => some '\\'
  | _ => none

/-- Value of one hex digit. -/
def hexNibble (c : Char) : Option Nat :=
  if '0' ≤ c ∧ c ≤ '9' then some (c.toNat - '0'.toNat)
  else if 'a' ≤ c ∧ c ≤ 'f' then some (c.toNat - 'a'.toNat + 10)
  else if 'A' ≤ c ∧ c ≤ 'F' then some (c.toNat - 'A'.toNat + 10)
  else none

/-- String-literal body scanner: everything after the opening quote, up to
the matching close quote, undoing escapes. -/
def jlexString : List Char → Option (List Char × List Char)
  | '"' :: t => some ([], t)
  | '\\' :: 'u' :: a :: b :: c :: d :: t => do
      let va ← hexNibble a
      let vb ← hexNibble b
      let vc ← hexNibble c
      let vd ← hexNibble d
      let (s, r) ← jlexString t
      some (Char.ofNat (((va * 16 + vb) * 16 + vc) * 16 + vd) :: s, r)
  | '\\' :: e :: t => do
      let c ← unesc1 e
      let (s, r) ← jlexString t
      some (c :: s, r)
  | c :: t => do
      let (s, r) ← jlexString t
      some (c :: s, r)
  | [] => none

mutual

/-- One JSON value, by recursive descent; `fuel` bounds the recursion and is
in practice instantiated with the input length. -/
def jparse : Nat → List Char → Option (Json × List Char)
  | 0, _ => none
  | fuel + 1, s =>
    match dropWs s with
    | 'n' :: 'u' :: 'l' :: 'l' :: r => some (.jnull, r)
    | 't' :: 'r' :: 'u' :: 'e' :: r => some (.jbool true, r)
    | 'f' :: 'a' :: 'l' :: 's' :: 'e' :: r => some (.jbool false, r)
    | '"' :: r => (jlexString r).map fun p => (.jstr p.1, p.2)
    | '[' :: r =>
        (match dropWs r with
         | ']' :: r' => some (.jarr [], r')
         | r1 => (jparseItems fuel r1).map fun p => (.jarr p.1, p.2))
    | '{' :: r =>
        (match dropWs r with
         | '}' :: r' => some (.jobj [], r')
         | r1 => (jparseFields fuel r1).map fun p => (.jobj p.1, p.2))
    | '-' :: r =>
        (match grabDigits r with
         | ([], _) => none
         | (ds, r') => some (.jnum (-(digitsVal ds : Int)), r'))
    | c :: r =>
        if isDig c then
          match grabDigits (c :: r) with
          | (ds, r') => some (.jnum (digitsVal ds), r')
        else none
    | [] => none

/-- One-or-more comma-separated array elements followed by `]`. -/
def jparseItems : Nat → List Char → Option (List Json × List Char)
  | 0, _ => none
  | fuel + 1, s => do
      let (v, r) ← jparse fuel s
      match dropWs r with
      | ',' :: r' => do
          let (vs, r'') ← jparseItems fuel r'
          some (v :: vs, r'')
      | ']' :: r' => some ([v], r')
      | _ => none

/-- One-or-more comma-separated object members followed by `}`. -/
def jparseFields : Nat → List Char → Option (List (List Char × Json) × List Char)
  | 0, _ => none
  | fuel + 1, s =>
      match dropWs s with
      | '"' :: r => do
          let (k, r1) ← jlexString r
          match dropWs r1 with
          | ':' :: r2 => do
              let (v, r3) ← jparse fuel r2
              match dropWs r3 with
              | ',' :: r4 => do
                  let (fs, r5) ← jparseFields fuel r4
                  some ((k, v) :: fs, r5)
              | '}' :: r4 => some ([(k, v)], r4)
              | _ => none
          | _ => none
      | _ => none

end

/-- `JSON.parse`: a complete value and nothing else (up to whitespace). -/
def JSONparse (s : List Char) : Option Json :=
  match jparse (s.length + 1) s with
  | some (j, r) => if dropWs r = [] then some j else none
  | none => none

/-! ### The serializer/parser round trip -/

theorem hexNibble_hexDigit (k : Nat) (h : k < 16) : hexNibble (hexDigit k) = some k := by
  interval_cases k <;> decide

theorem jlexString_escChar (c : Char) (t : List Char) :
    jlexString (escChar c ++ t) = (jlexString t).map fun p => (c :: p.1, p.2) := by
  rw [escChar]
  split_ifs with h1 h2 h3 h4 h5 h6 h7 h8
  · subst h1; cases h : jlexString t <;> simp [jlexString, unesc1, h]
  · subst h2; cases h : jlexString t <;> simp [jlexString, unesc1, h]
  · subst h3; cases h : jlexString t <;> simp [jlexString, unesc1, h]
  · subst h4; cases h : jlexString t <;> simp [jlexString, unesc1, h]
  · subst h5; cases h : jlexString t <;> simp [jlexString, unesc1, h]
  · subst h6; cases h : jlexString t <;> simp [jlexString, unesc1, h]
  · subst h7; cases h : jlexString t <;> simp [jlexString, unesc1, h]
  · have hhi : hexNibble (hexDigit (c.toNat / 16)) = some (c.toNat / 16) :=
      hexNibble_hexDigit _ (by omega)
    have hlo : hexNibble (hexDigit (c.toNat % 16)) = some (c.toNat % 16) :=
      hexNibble_hexDigit _ (by omega)
    have hn : c.toNat / 16 * 16 + c.toNat % 16 = c.toNat := by omega
    have h0 : hexNibble '0' = some 0 := by decide
    cases h : jlexString t <;>
      simp [jlexString, h0, hhi, hlo, h, hn, Char.ofNat_toNat]
  · have hq : c ≠ '"' := h1
    have hb : c ≠ '\\' := h2
    cases h : jlexString t <;> simp [jlexString, hq, hb, h]

theorem jlexString_escStr (s : List Char) :
    ∀ t, jlexString (escStr s ++ '"' :: t) = some (s, t) := by
  induction s with
  | nil => intro t; simp [escStr, jlexString]
  | cons c cs ih =>
      intro t
      rw [escStr, List.append_assoc, jlexString_escChar, ih]
      rfl

/-- A head that cannot extend a digit run. -/
def stopsDigits : List Char → Prop
  | [] => True
  | c :: _ => isDig c = false

theorem grabDigits_stop {r : List Char} (h : stopsDigits r) : grabDigits r = ([], r) := by
  cases r with
  | nil => rfl
  | cons c t => simp [grabDigits, stopsDigits] at h ⊢; simp [h]

theorem grabDigits_run (ds : List Char) (hds : ∀ c ∈ ds, isDig c = true) :
    ∀ r, stopsDigits r → grabDigits (ds ++ r) = (ds, r) := by
  induction ds with
  | nil => intro r hr; simpa using grabDigits_stop hr
  | cons c t ih =>
      intro r hr
      have hc : isDig c = true := hds c (by simp)
      have := ih (fun x hx => hds x (by simp [hx])) r hr
      simp [grabDigits, hc, this]

/-- Characters that may legitimately start a rendered JSON value: no
whitespace, and none of the list/object closers or separators. -/
def tokenStart (c : Char) : Bool :=
  c ≠ ' ' && c ≠ '\n' && c ≠ '\t' && c ≠ '\r' && c ≠ ']' && c ≠ '}' && c ≠ ','

theorem isDig_facts {c : Char} (h : isDig c = true) :
    tokenStart c = true ∧ c ≠ 'n' ∧ c ≠ 't' ∧ c ≠ 'f' ∧ c ≠ '"' ∧ c ≠ '[' ∧ c ≠ '{' ∧
      c ≠ '-' := by
  refine ⟨?_, ?_, ?_, ?_, ?_, ?_, ?_, ?_⟩
  · simp only [tokenStart, Bool.and_eq_true, bne_iff_ne, decide_eq_true_eq, ne_eq]
    refine ⟨⟨⟨⟨⟨⟨?_, ?_⟩, ?_⟩, ?_⟩, ?_⟩, ?_⟩, ?_⟩ <;> (rintro rfl; exact absurd h (by decide))
  all_goals (rintro rfl; exact absurd h (by decide))

theorem dropWs_tokenStart {c : Char} (t : List Char) (h : tokenStart c = true) :
    dropWs (c :: t) = c :: t := by
  simp only [tokenStart, Bool.and_eq_true, bne_iff_ne, decide_eq_true_eq, ne_eq] at h
  obtain ⟨⟨⟨⟨⟨⟨h1, h2⟩, h3⟩, h4⟩, _⟩, _⟩, _⟩ := h
  rw [dropWs]
  simp [h1, h2, h3, h4]

/-- Every rendered value starts with a `tokenStart` character. -/
theorem jrender_head (j : Json) :
    ∃ c t, jrender j = c :: t ∧ tokenStart c = true := by
  cases j with
  | jnull => exact ⟨'n', _, rfl, by decide⟩
  | jbool b => cases b with
      | true => exact ⟨'t', _, rfl, by decide⟩
      | false => exact ⟨'f', _, rfl, by decide⟩
  | jstr s => exact ⟨'"', escStr s ++ ['"'], by simp [jrender], by decide⟩
  | jarr items => exact ⟨'[', jrenderItems items ++ [']'], by simp [jrender], by decide⟩
  | jobj fields => exact ⟨'{', jrenderFields fields ++ ['}'], by simp [jrender], by decide⟩
  | jnum n =>
      by_cases hn : n < 0
      · exact ⟨'-', natChars n.natAbs, by simp [jrender, intChars, hn], by decide⟩
      · obtain ⟨c, t, hct⟩ : ∃ c t, natChars n.natAbs = c :: t := by
          cases h : natChars n.natAbs with
          | nil => exact absurd h (natChars_ne_nil _)
          | cons c t => exact ⟨c, t, rfl⟩
        have hc : isDig c = true := natChars_all_digits _ c (hct ▸ List.mem_cons_self ..)
        exact ⟨c, t, by simp [jrender, intChars, hn, hct], (isDig_facts hc).1⟩

theorem dropWs_jrender (j : Json) (x : List Char) :
    dropWs (jrender j ++ x) = jrender j ++ x := by
  obtain ⟨c, t, hct, hc⟩ := jrender_head j
  rw [hct, List.cons_append]
  exact dropWs_tokenStart _ hc

theorem jparse_step (fuel : Nat) (s : List Char) :
    jparse (fuel + 1) s
      = match dropWs s with
        | 'n' :: 'u' :: 'l' :: 'l' :: r => some (.jnull, r)
        | 't' :: 'r' :: 'u' :: 'e' :: r => some (.jbool true, r)
        | 'f' :: 'a' :: 'l' :: 's' :: 'e' :: r => some (.jbool false, r)
        | '"' :: r => (jlexString r).map fun p => (.jstr p.1, p.2)
        | '[' :: r =>
            (match dropWs r with
             | ']' :: r' => some (.jarr [], r')
             | r1 => (jparseItems fuel r1).map fun p => (.jarr p.1, p.2))
        | '{' :: r =>
            (match dropWs r with
             | '}' :: r' => some (.jobj [], r')
             | r1 => (jparseFields fuel r1).map fun p => (.jobj p.1, p.2))
        | '-' :: r =>
            (match grabDigits r with
             | ([], _) => none
             | (ds, r') => some (.jnum (-(digitsVal ds : Int)), r'))
        | c :: r =>
            if isDig c then
              match grabDigits (c :: r) with
              | (ds, r') => some (.jnum (digitsVal ds), r')
            else none
        | [] => none := rfl

theorem jparseItems_step (fuel : Nat) (s : List Char) :
    jparseItems (fuel + 1) s
      = (do
        let (v, r) ← jparse fuel s
        match dropWs r with
        | ',' :: r' => do
            let (vs, r'') ← jparseItems fuel r'
            some (v :: vs, r'')
        | ']' :: r' => some ([v], r')
        | _ => none) := rfl

theorem jparseFields_step (fuel : Nat) (s : List Char) :
    jparseFields (fuel + 1) s
      = match dropWs s with
        | '"' :: r => do
            let (k, r1) ← jlexString r
            match dropWs r1 with
            | ':' :: r2 => do
                let (v, r3) ← jparse fuel r2
                match dropWs r3 with
                | ',' :: r4 => do
                    let (fs, r5) ← jparseFields fuel r4
                    some ((k, v) :: fs, r5)
                | '}' :: r4 => some ([(k, v)], r4)
                | _ => none
            | _ => none
        | _ => none := rfl

/-- The parser's number arms invert `intChars`. -/
theorem jparse_intChars (n : Int) (fuel : Nat) (rest : List Char) (hr : stopsDigits rest) :
    jparse (fuel + 1) (intChars n ++ rest) = some (.jnum n, rest) := by
  obtain ⟨c, t, hct⟩ : ∃ c t, natChars n.natAbs = c :: t := by
    cases h : natChars n.natAbs with
    | nil => exact absurd h (natChars_ne_nil _)
    | cons c t => exact ⟨c, t, rfl⟩
  have hdig : ∀ x ∈ natChars n.natAbs, isDig x = true := natChars_all_digits _
  have hgrab : grabDigits (natChars n.natAbs ++ rest) = (natChars n.natAbs, rest) :=
    grabDigits_run _ hdig rest hr
  have hval : digitsVal (natChars n.natAbs) = n.natAbs := digitsVal_natChars _
  by_cases hn : n < 0
  · have harg : intChars n ++ rest = '-' :: (natChars n.natAbs ++ rest) := by
      simp [intChars, hn]
    rw [harg, jparse_step]
    have hws : dropWs ('-' :: (natChars n.natAbs ++ rest))
        = '-' :: (natChars n.natAbs ++ rest) := by
      rw [dropWs]; simp
    rw [hws]
    simp only [hgrab]
    rw [hct]
    have : -(digitsVal (c :: t) : Int) = n := by
      rw [← hct, hval]; omega
    simp [this]
  · have hc : isDig c = true := hdig c (hct ▸ List.mem_cons_self ..)
    obtain ⟨hts, hn', ht', hf', hq', hbk', hbc', hm'⟩ := isDig_facts hc
    have harg : intChars n ++ rest = c :: (t ++ rest) := by
      simp [intChars, hn, hct]
    rw [harg, jparse_step, dropWs_tokenStart _ hts]
    have hgrab' : grabDigits (c :: (t ++ rest)) = (c :: t, rest) := by
      have := hgrab
      rwa [hct, List.cons_append] at this
    have hvn : (digitsVal (c :: t) : Int) = n := by
      rw [← hct, hval]; omega
    simp [hn', ht', hf', hq', hbk', hbc', hm', hc, hgrab', hvn]

theorem stopsDigits_cons {c : Char} (h : isDig c = false) (r : List Char) :
    stopsDigits (c :: r) := h

mutual

theorem rt_jparse : ∀ (j : Json) (fuel : Nat) (rest : List Char),
    (jrender j).length < fuel → stopsDigits rest →
    jparse fuel (jrender j ++ rest) = some (j, rest)
  | _, 0, _, hf, _ => absurd hf (by omega)
  | .jnull, fuel + 1, rest, _, _ => by
      have h : jrender .jnull ++ rest = 'n' :: 'u' :: 'l' :: 'l' :: rest := by simp [jrender]
      rw [h, jparse_step]
      rfl
  | .jbool true, fuel + 1, rest, _, _ => by
      have h : jrender (.jbool true) ++ rest = 't' :: 'r' :: 'u' :: 'e' :: rest := by
        simp [jrender]
      rw [h, jparse_step]
      rfl
  | .jbool false, fuel + 1, rest, _, _ => by
      have h : jrender (.jbool false) ++ rest = 'f' :: 'a' :: 'l' :: 's' :: 'e' :: rest := by
        simp [jrender]
      rw [h, jparse_step]
      rfl
  | .jnum n, fuel + 1, rest, _, hr => by
      have h : jrender (.jnum n) ++ rest = intChars n ++ rest := by simp [jrender]
      rw [h, jparse_intChars n fuel rest hr]
  | .jstr s, fuel + 1, rest, _, _ => by
      have h : jrender (.jstr s) ++ rest = '"' :: (escStr s ++ '"' :: rest) := by
        simp [jrender]
      rw [h, jparse_step]
      show (jlexString (escStr s ++ '"' :: rest)).map (fun p => (Json.jstr p.1, p.2))
          = some (.jstr s, rest)
      rw [jlexString_escStr]
      rfl
  | .jarr [], fuel + 1, rest, _, _ => by
      have h : jrender (.jarr []) ++ rest = '[' :: ']' :: rest := by
        simp [jrender, jrenderItems]
      rw [h, jparse_step]
      rfl
  | .jarr (x :: xs), fuel + 1, rest, hf, _ => by
      have h : jrender (.jarr (x :: xs)) ++ rest
          = '[' :: (jrenderItems (x :: xs) ++ ']' :: rest) := by
        simp [jrender]
      rw [h, jparse_step]
      show (match dropWs (jrenderItems (x :: xs) ++ ']' :: rest) with
            | ']' :: r' => some (Json.jarr [], r')
            | r1 => (jparseItems fuel r1).map fun p => (Json.jarr p.1, p.2))
          = some (.jarr (x :: xs), rest)
      obtain ⟨c, t, hct, hcs⟩ := jrender_head x
      obtain ⟨T, hT⟩ : ∃ T, jrenderItems (x :: xs) ++ ']' :: rest = c :: T := by
        cases xs with
        | nil => exact ⟨t ++ ']' :: rest, by simp [jrenderItems, hct]⟩
        | cons y ys =>
            exact ⟨t ++ ',' :: (jrenderItems (y :: ys) ++ ']' :: rest),
              by simp [jrenderItems, hct]⟩
      have hws2 : dropWs (jrenderItems (x :: xs) ++ ']' :: rest)
          = jrenderItems (x :: xs) ++ ']' :: rest := by
        rw [hT]; exact dropWs_tokenStart _ hcs
      have hlen : (jrender (.jarr (x :: xs))).length
          = (jrenderItems (x :: xs)).length + 2 := by simp [jrender]
      have hitems := rt_jparseItems x xs fuel rest (by omega)
      have hc' : c ≠ ']' := by
        simp only [tokenStart, Bool.and_eq_true, bne_iff_ne, decide_eq_true_eq, ne_eq] at hcs
        exact hcs.1.1.2
      rw [hws2, hT]
      split
      · rename_i r' heq
        simp only [List.cons.injEq] at heq
        exact absurd heq.1 hc'
      · rw [← hT, hitems]
        rfl
  | .jobj [], fuel + 1, rest, _, _ => by
      have h : jrender (.jobj []) ++ rest = '{' :: '}' :: rest := by
        simp [jrender, jrenderFields]
      rw [h, jparse_step]
      rfl
  | .jobj (f0 :: fs), fuel + 1, rest, hf, _ => by
      have h : jrender (.jobj (f0 :: fs)) ++ rest
          = '{' :: (jrenderFields (f0 :: fs) ++ '}' :: rest) := by
        simp [jrender]
      rw [h, jparse_step]
      show (match dropWs (jrenderFields (f0 :: fs) ++ '}' :: rest) with
            | '}' :: r' => some (Json.jobj [], r')
            | r1 => (jparseFields fuel r1).map fun p => (Json.jobj p.1, p.2))
          = some (.jobj (f0 :: fs), rest)
      obtain ⟨t, ht⟩ : ∃ t, jrenderFields (f0 :: fs) ++ '}' :: rest = '"' :: t := by
        obtain ⟨k, v⟩ := f0
        cases fs with
        | nil =>
            exact ⟨escStr k ++ '"' :: ':' :: jrender v ++ '}' :: rest,
              by simp [jrenderFields]⟩
        | cons f1 fs' =>
            exact ⟨escStr k
                ++ '"' :: ':' :: (jrender v ++ ',' :: jrenderFields (f1 :: fs'))
                ++ '}' :: rest,
              by simp [jrenderFields]⟩
      have hws2 : dropWs (jrenderFields (f0 :: fs) ++ '}' :: rest)
          = jrenderFields (f0 :: fs) ++ '}' :: rest := by
        rw [ht]; exact dropWs_tokenStart _ (by decide)
      have hlen : (jrender (.jobj (f0 :: fs))).length
          = (jrenderFields (f0 :: fs)).length + 2 := by simp [jrender]
      have hfields := rt_jparseFields f0 fs fuel rest (by omega)
      rw [hws2, ht]
      split
      · rename_i r' heq
        simp only [List.cons.injEq] at heq
        exact absurd heq.1 (by decide)
      · rw [← ht, hfields]
        rfl
termination_by j _ _ _ _ => sizeOf j

theorem rt_jparseItems : ∀ (x : Json) (xs : List Json) (fuel : Nat) (rest : List Char),
    (jrenderItems (x :: xs)).length + 1 < fuel →
    jparseItems fuel (jrenderItems (x :: xs) ++ ']' :: rest) = some (x :: xs, rest)
  | _, _, 0, _, hf => absurd hf (by omega)
  | x, [], fuel + 1, rest, hf => by
      have h : jrenderItems [x] ++ ']' :: rest = jrender x ++ ']' :: rest := by
        simp [jrenderItems]
      have hfx : (jrender x).length < fuel := by
        simp only [jrenderItems] at hf; omega
      rw [h, jparseItems_step, rt_jparse x fuel (']' :: rest) hfx (stopsDigits_cons (by decide) _)]
      rfl
  | x, y :: ys, fuel + 1, rest, hf => by
      have h : jrenderItems (x :: y :: ys) ++ ']' :: rest
          = jrender x ++ ',' :: (jrenderItems (y :: ys) ++ ']' :: rest) := by
        simp [jrenderItems]
      simp only [jrenderItems, List.length_append, List.length_cons] at hf
      have hfx : (jrender x).length < fuel := by omega
      have hfy : (jrenderItems (y :: ys)).length + 1 < fuel := by omega
      rw [h, jparseItems_step,
        rt_jparse x fuel (',' :: (jrenderItems (y :: ys) ++ ']' :: rest)) hfx
          (stopsDigits_cons (by decide) _)]
      show (do
            let (vs, r'') ← jparseItems fuel (jrenderItems (y :: ys) ++ ']' :: rest)
            some (x :: vs, r'') : Option (List Json × List Char))
          = some (x :: y :: ys, rest)
      rw [rt_jparseItems y ys fuel rest hfy]
      rfl
termination_by x xs _ _ _ => sizeOf x + sizeOf xs

theorem rt_jparseFields :
    ∀ (f0 : List Char × Json) (fs : List (List Char × Json)) (fuel : Nat) (rest : List Char),
    (jrenderFields (f0 :: fs)).length + 1 < fuel →
    jparseFields fuel (jrenderFields (f0 :: fs) ++ '}' :: rest) = some (f0 :: fs, rest)
  | _, _, 0, _, hf => absurd hf (by omega)
  | (k, v), [], fuel + 1, rest, hf => by
      have h : jrenderFields [(k, v)] ++ '}' :: rest
          = '"' :: (escStr k ++ '"' :: (':' :: (jrender v ++ '}' :: rest))) := by
        simp [jrenderFields]
      have hfv : (jrender v).length < fuel := by
        simp only [jrenderFields, List.length_cons, List.length_append] at hf; omega
      rw [h, jparseFields_step]
      show (do
            let (k', r1) ← jlexString (escStr k ++ '"' :: (':' :: (jrender v ++ '}' :: rest)))
            match dropWs r1 with
            | ':' :: r2 => do
                let (v', r3) ← jparse fuel r2
                match dropWs r3 with
                | ',' :: r4 => do
                    let (fs', r5) ← jparseFields fuel r4
                    some ((k', v') :: fs', r5)
                | '}' :: r4 => some ([(k', v')], r4)
                | _ => none
            | _ => none : Option (List (List Char × Json) × List Char))
          = some ([(k, v)], rest)
      rw [jlexString_escStr]
      show (do
            let (v', r3) ← jparse fuel (jrender v ++ '}' :: rest)
            match dropWs r3 with
            | ',' :: r4 => do
                let (fs', r5) ← jparseFields fuel r4
                some ((k, v') :: fs', r5)
            | '}' :: r4 => some ([(k, v')], r4)
            | _ => none : Option (List (List Char × Json) × List Char))
          = some ([(k, v)], rest)
      rw [rt_jparse v fuel ('}' :: rest) hfv (stopsDigits_cons (by decide) _)]
      rfl
  | (k, v), f1 :: fs, fuel + 1, rest, hf => by
      have h : jrenderFields ((k, v) :: f1 :: fs) ++ '}' :: rest
          = '"' :: (escStr k
              ++ '"' :: (':' :: (jrender v
                ++ ',' :: (jrenderFields (f1 :: fs) ++ '}' :: rest)))) := by
        simp [jrenderFields]
      simp only [jrenderFields, List.length_cons, List.length_append] at hf
      have hfv : (jrender v).length < fuel := by omega
      have hff : (jrenderFields (f1 :: fs)).length + 1 < fuel := by omega
      rw [h, jparseFields_step]
      show (do
            let (k', r1) ← jlexString (escStr k
              ++ '"' :: (':' :: (jrender v ++ ',' :: (jrenderFields (f1 :: fs) ++ '}' :: rest))))
            match dropWs r1 with
            | ':' :: r2 => do
                let (v', r3) ← jparse fuel r2
                match dropWs r3 with
                | ',' :: r4 => do
                    let (fs', r5) ← jparseFields fuel r4
                    some ((k', v') :: fs', r5)
                | '}' :: r4 => some ([(k', v')], r4)
                | _ => none
            | _ => none : Option (List (List Char × Json) × List Char))
          = some ((k, v) :: f1 :: fs, rest)
      rw [jlexString_escStr]
      show (do
            let (v', r3) ← jparse fuel (jrender v
              ++ ',' :: (jrenderFields (f1 :: fs) ++ '}' :: rest))
            match dropWs r3 with
            | ',' :: r4 => do
                let (fs', r5) ← jparseFields fuel r4
                some ((k, v') :: fs', r5)
            | '}' :: r4 => some ([(k, v')], r4)
            | _ => none : Option (List (List Char × Json) × List Char))
          = some ((k, v) :: f1 :: fs, rest)
      rw [rt_jparse v fuel (',' :: (jrenderFields (f1 :: fs) ++ '}' :: rest)) hfv
        (stopsDigits_cons (by decide) _)]
      show (do
            let (fs', r5) ← jparseFields fuel (jrenderFields (f1 :: fs) ++ '}' :: rest)
            some ((k, v) :: fs', r5) : Option (List (List Char × Json) × List Char))
          = some ((k, v) :: f1 :: fs, rest)
      rw [rt_jparseFields f1 fs fuel rest hff]
      rfl
termination_by f0 fs _ _ _ => sizeOf f0 + sizeOf fs

end

/-- The full `stringify`/`parse` round trip. -/
theorem JSONparse_jrender (j : Json) : JSONparse (jrender j) = some j := by
  have h := rt_jparse j ((jrender j).length + 1) [] (by omega) trivial
  rw [List.append_nil] at h
  rw [JSONparse, h]
  rfl

/-! ## Substring primitives

`leadsWith`/`containsSeq` model `String.prototype.startsWith`-style matching
and `String.prototype.includes`; `stripLead` strips a literal prefix. -/

/-- Whether the pattern occurs at the very start of the input. -/
def leadsWith : List Char → List Char → Bool
  | [], _ => true
  | _ :: _, [] => false
  | p :: ps, c :: cs => p == c && leadsWith ps cs

/-- Whether the pattern occurs anywhere in the input
(`String.prototype.includes`). -/
def containsSeq : List Char → List Char → Bool
  | p, [] => leadsWith p []
  | p, s@(_ :: t) => leadsWith p s || containsSeq p t

/-- Strip a literal prefix, returning what follows it. -/
def stripLead : List Char → List Char → Option (List Char)
  | [], s => some s
  | _ :: _, [] => none
  | p :: ps, c :: cs => if p = c then stripLead ps cs else none

theorem stripLead_self : ∀ (p s : List Char), stripLead p (p ++ s) = some s
  | [], s => rfl
  | p :: ps, s => by simp [stripLead, stripLead_self ps s]

theorem leadsWith_self : ∀ (p s : List Char), leadsWith p (p ++ s) = true
  | [], s => rfl
  | p :: ps, s => by simp [leadsWith, leadsWith_self ps s]

theorem containsSeq_of_leadsWith {p s : List Char} (h : leadsWith p s = true) :
    containsSeq p s = true := by
  cases s with
  | nil => simpa [containsSeq] using h
  | cons c t => simp [containsSeq, h]

/-! ## The sync-tracker marker regex

The sources locate the tracker blob with the JavaScript regular expression
`/<!-- DISCORD_SYNC: ({.+?}) -->/` and probe for candidate comments with
`body.includes('<!-- DISCORD_SYNC:')`.  The model below implements the
regex's leftmost-match semantics: at each start position the literal
marker, a `{`, then a lazy one-or-more run of non-line-terminator
characters, closed by the earliest following `} -->`. -/

/-- The probe string used by the `comments.find` calls. -/
def syncMarkerProbe : List Char :=
  ['<', '!', '-', '-', ' ', 'D', 'I', 'S', 'C', 'O', 'R', 'D', '_', 'S', 'Y', 'N', 'C', ':']

/-- The literal head of the extraction regex (probe plus one space). -/
def syncMarkerSp : List Char := syncMarkerProbe ++ [' ']

/-- Does the input begin with the closing sequence `} -->` of the regex? -/
def closeHead : List Char → Bool
  | '}' :: ' ' :: '-' :: '-' :: '>' :: _ => true
  | _ => false

/-- The lazy scan of `.+?`: at each position, first try to close with
`} -->`, else consume one non-line-terminator character. -/
def lazyClose (acc : List Char) : List Char → Option (List Char)
  | [] => none
  | c :: rest =>
      if closeHead (c :: rest) then some acc
      else if c = '\n' ∨ c = '\r' then none
      else lazyClose (acc ++ [c]) rest

/-- One anchored attempt of the tracker regex at the start of the input;
returns the capture group `{...}` on success. -/
def trackerMatchAt (s : List Char) : Option (List Char) :=
  match stripLead syncMarkerSp s with
  | none => none
  | some r =>
      match r with
      | '{' :: c0 :: rest =>
          if c0 = '\n' ∨ c0 = '\r' then none
          else (lazyClose [c0] rest).map fun interior => '{' :: (interior ++ ['}'])
      | _ => none

/-- Leftmost match: the capture of the first position where the tracker
regex matches, scanning left to right. -/
def findTrackerCapture : List Char → Option (List Char)
  | [] => none
  | s@(_ :: t) =>
      match trackerMatchAt s with
      | some cap => some cap
      | none => findTrackerCapture t

/-! ### When the lazy scan closes exactly at the end of a blob

`safeInterior` is the side condition: the interior holds no line
terminator and no `'}'` immediately followed by a space, so the earliest
`} -->` is the real closing one.  Everything the codec writes satisfies
it (inner objects are followed by `,` or `]`, never by a space). -/

/-- Is the head of the input a space? -/
def headIsSpace : List Char → Bool
  | c :: _ => c == ' '
  | [] => false

/-- No line terminators, and no `'}'` directly followed by a space. -/
def safeInterior : List Char → Bool
  | [] => true
  | c :: t => !(c = '\n' || c = '\r') && !(c = '}' && headIsSpace t) && safeInterior t

theorem closeHead_shape {s : List Char} (h : closeHead s = true) :
    ∃ t, s = '}' :: ' ' :: '-' :: '-' :: '>' :: t := by
  unfold closeHead at h
  split at h
  · rename_i t; exact ⟨t, rfl⟩
  · exact absurd h (by simp)

theorem safeInterior_cons {c : Char} {t : List Char} (h : safeInterior (c :: t) = true) :
    c ≠ '\n' ∧ c ≠ '\r' ∧ ¬(c = '}' ∧ headIsSpace t = true) ∧ safeInterior t = true := by
  rw [safeInterior] at h
  simp only [Bool.and_eq_true, Bool.not_eq_true', Bool.or_eq_false_iff,
    Bool.and_eq_false_iff, decide_eq_false_iff_not] at h
  obtain ⟨⟨⟨h1, h2⟩, h3⟩, h4⟩ := h
  refine ⟨h1, h2, ?_, h4⟩
  rintro ⟨rfl, hsp⟩
  rcases h3 with h | h
  · exact h rfl
  · rw [h] at hsp; exact Bool.noConfusion hsp

theorem lazyClose_run : ∀ (mid : List Char), safeInterior mid = true →
    ∀ (acc rest : List Char),
    lazyClose acc (mid ++ '}' :: ' ' :: '-' :: '-' :: '>' :: rest) = some (acc ++ mid) := by
  intro mid
  induction mid with
  | nil =>
      intro _ acc rest
      simp [lazyClose, closeHead]
  | cons c mid' ih =>
      intro hsafe acc rest
      obtain ⟨hn1, hn2, hbs, hmid'⟩ := safeInterior_cons hsafe
      have hch : closeHead (c :: (mid' ++ '}' :: ' ' :: '-' :: '-' :: '>' :: rest)) = false := by
        rw [Bool.eq_false_iff]
        intro hc
        obtain ⟨t, ht⟩ := closeHead_shape hc
        injection ht with ht1 ht2
        cases mid' with
        | nil => simp at ht2
        | cons m0 mid'' =>
            rw [List.cons_append] at ht2
            injection ht2 with ht3 _
            exact hbs ⟨ht1, by simp [headIsSpace, ht3]⟩
      rw [List.cons_append]
      rw [show lazyClose acc (c :: (mid' ++ '}' :: ' ' :: '-' :: '-' :: '>' :: rest))
            = lazyClose (acc ++ [c]) (mid' ++ '}' :: ' ' :: '-' :: '-' :: '>' :: rest) from by
        rw [lazyClose]
        simp [hch, hn1, hn2]]
      rw [ih hmid']
      simp

/-- A successful anchored match at the head of the input is the leftmost
match. -/
theorem findTrackerCapture_head {s cap : List Char} (h : trackerMatchAt s = some cap) :
    findTrackerCapture s = some cap := by
  cases s with
  | nil =>
      have hnone : trackerMatchAt [] = none := by decide
      rw [hnone] at h
      exact Option.noConfusion h
  | cons c t =>
      rw [findTrackerCapture, h]

/-- The anchored tracker match on a body laid out as the codec writes it:
the marker, a brace-delimited blob with a `safeInterior` inside, the
closing ` -->`, and an arbitrary tail. -/
theorem trackerMatchAt_blob (c0 : Char) (mid rest : List Char)
    (hc0 : c0 ≠ '\n' ∧ c0 ≠ '\r') (hsafe : safeInterior mid = true) :
    trackerMatchAt (syncMarkerSp
        ++ '{' :: c0 :: (mid ++ '}' :: ' ' :: '-' :: '-' :: '>' :: rest))
      = some ('{' :: ((c0 :: mid) ++ ['}'])) := by
  unfold trackerMatchAt
  rw [stripLead_self]
  show (if c0 = '\n' ∨ c0 = '\r' then none
        else (lazyClose [c0] (mid ++ '}' :: ' ' :: '-' :: '-' :: '>' :: rest)).map
          fun interior => '{' :: (interior ++ ['}'])) = _
  rw [if_neg (by rintro (rfl | rfl) <;> simp at hc0), lazyClose_run mid hsafe [c0] rest]
  rfl

/-! ### `safeInterior` for what the codec writes -/

/-- A character that can appear raw in a blob interior with no risk for
the lazy close: not `'}'` and not a line terminator. -/
def plainChar (c : Char) : Bool := c ≠ '}' && c ≠ '\n' && c ≠ '\r'

theorem headIsSpace_append {a b : List Char} (ha : a ≠ []) :
    headIsSpace (a ++ b) = headIsSpace a := by
  cases a with
  | nil => exact absurd rfl ha
  | cons c t => rfl

theorem safeInterior_append {a b : List Char} (ha : safeInterior a = true)
    (hb : safeInterior b = true) (hsp : headIsSpace b = false) :
    safeInterior (a ++ b) = true := by
  induction a with
  | nil => simpa using hb
  | cons c a' ih =>
      obtain ⟨hn1, hn2, hbs, ha'⟩ := safeInterior_cons ha
      rw [List.cons_append, safeInterior]
      simp only [Bool.and_eq_true, Bool.not_eq_true', Bool.or_eq_false_iff,
        Bool.and_eq_false_iff, decide_eq_false_iff_not]
      refine ⟨⟨⟨fun h => hn1 h, fun h => hn2 h⟩, ?_⟩, ih ha'⟩
      by_cases hc : c = '}'
      · right
        cases a' with
        | nil => simpa using hsp
        | cons x t =>
            rw [headIsSpace_append (by simp)]
            by_contra hx
            rw [Bool.not_eq_false] at hx
            exact hbs ⟨hc, hx⟩
      · exact Or.inl hc

theorem safeInterior_of_plain {l : List Char} (h : l.all plainChar = true) :
    safeInterior l = true := by
  induction l with
  | nil => rfl
  | cons c t ih =>
      simp only [List.all_cons, Bool.and_eq_true] at h
      obtain ⟨hc, ht⟩ := h
      simp only [plainChar, Bool.and_eq_true, bne_iff_ne, decide_eq_true_eq, ne_eq] at hc
      rw [safeInterior]
      simp only [Bool.and_eq_true, Bool.not_eq_true', Bool.or_eq_false_iff,
        Bool.and_eq_false_iff, decide_eq_false_iff_not]
      exact ⟨⟨⟨fun h => hc.1.2 h, fun h => hc.2 h⟩, Or.inl hc.1.1⟩, ih ht⟩

theorem plain_escChar {c : Char} (h : c ≠ '}') : (escChar c).all plainChar = true := by
  rw [escChar]
  split_ifs with h1 h2 h3 h4 h5 h6 h7 h8
  · decide
  · decide
  · decide
  · decide
  · decide
  · decide
  · decide
  · have d1 : plainChar '\\' = true := by decide
    have d2 : plainChar 'u' = true := by decide
    have d3 : plainChar '0' = true := by decide
    have hx : ∀ k, k < 16 → plainChar (hexDigit k) = true := by
      intro k hk; interval_cases k <;> decide
    simp [List.all_cons, d1, d2, d3, hx (c.toNat / 16) (by omega),
      hx (c.toNat % 16) (by omega)]
  · simp only [List.all_cons, List.all_nil, Bool.and_true]
    simp only [plainChar, Bool.and_eq_true, decide_eq_true_eq, ne_eq]
    exact ⟨⟨by simpa using h, by simpa using h3⟩, by simpa using h4⟩

theorem plain_escStr {s : List Char} (h : '}' ∉ s) : (escStr s).all plainChar = true := by
  induction s with
  | nil => rfl
  | cons c t ih =>
      rw [escStr, List.all_append]
      simp only [List.mem_cons, not_or] at h
      rw [plain_escChar (fun he => h.1 he.symm), ih h.2]
      rfl

theorem plain_natChars (n : Nat) : (natChars n).all plainChar = true := by
  rw [List.all_eq_true]
  intro c hc
  have hd := natChars_all_digits n c hc
  simp only [isDig, Bool.and_eq_true, decide_eq_true_eq] at hd
  simp only [plainChar, Bool.and_eq_true, decide_eq_true_eq, ne_eq]
  refine ⟨⟨?_, ?_⟩, ?_⟩ <;>
    (intro he; subst he;
     first
     | exact absurd hd.2 (by decide)
     | exact absurd hd.1 (by decide))

/-! ## Dynamic field access on parsed JSON

The TypeScript sources read properties off the object returned by
`JSON.parse` without validation.  The model reads a named field of a
parsed value, `none` standing for JavaScript `undefined` (field absent,
or the value not of the expected shape); a duplicate key takes the last
occurrence, as in JavaScript. -/

/-- Property access `obj[key]` on a parsed JSON value. -/
def jlookup (j : Json) (key : List Char) : Option Json :=
  match j with
  | .jobj fields => (fields.reverse.find? fun f => f.1 == key).map fun f => f.2
  | _ => none

/-- A string-typed read of an optional JSON value. -/
def asStr : Option Json → Option (List Char)
  | some (.jstr s) => some s
  | _ => none

/-- A boolean-typed read of an optional JSON value. -/
def asBool : Option Json → Option Bool
  | some (.jbool b) => some b
  | _ => none

/-- An array-typed read of an optional JSON value. -/
def asArr : Option Json → Option (List Json)
  | some (.jarr items) => some items
  | _ => none

/-! ## Dates

Per the conventions above, a `Date` is its epoch-millisecond count, its
ISO rendering is the decimal rendering of that count, and `new Date(s)`
on such a rendering reads the count back (`none` = Invalid Date). -/

/-- `Date.prototype.toISOString`, modelled per the file conventions. -/
def dateToIso (ms : Nat) : List Char := natChars ms

/-- `new Date(s)` on a timestamp string, modelled per the file conventions. -/
def newDateFromChars (s : List Char) : Option Nat :=
  if s.all isDig && !s.isEmpty then some (digitsVal s) else none

theorem newDateFromChars_dateToIso (t : Nat) : newDateFromChars (dateToIso t) = some t := by
  rw [dateToIso, newDateFromChars]
  have h1 : (natChars t).all isDig = true :=
    List.all_eq_true.mpr fun c hc => natChars_all_digits t c hc
  have h2 : (natChars t).isEmpty = false := by
    cases h : natChars t with
    | nil => exact absurd h (natChars_ne_nil t)
    | cons c cs => rfl
  rw [h1, h2, digitsVal_natChars]
  rfl

/-! ## The sync-tracker codec (workflows/githubIssueManager/helpers.ts)

`createSyncTrackerComment` serializes a `SyncTrackerData` value —
`{ version: 1, lastMessageId, lastTimestamp, lastAuthorIsTeamMember? }` —
as JSON inside the marker comment, followed by the human-readable
tracker section.  `parseSyncTrackerComment` extracts the blob with the
tracker regex, `JSON.parse`s it, and reads the three fields off the
result (the `version` field is not read). -/

/-- The fields of the object `createSyncTrackerComment` feeds to
`JSON.stringify` (which drops the field whose value is `undefined`). -/
def trackerFieldsV1 (lastMessageId : List Char) (lastTimestamp : Nat)
    (lastAuthorIsTeamMember : Option Bool) : List (List Char × Json) :=
  [("version".toList, .jnum 1),
   ("lastMessageId".toList, .jstr lastMessageId),
   ("lastTimestamp".toList, .jstr (dateToIso lastTimestamp))]
    ++ (match lastAuthorIsTeamMember with
        | some b => [("lastAuthorIsTeamMember".toList, .jbool b)]
        | none => [])

/-- The JSON value of the v1 blob. -/
def trackerJsonV1 (lastMessageId : List Char) (lastTimestamp : Nat)
    (lastAuthorIsTeamMember : Option Bool) : Json :=
  .jobj (trackerFieldsV1 lastMessageId lastTimestamp lastAuthorIsTeamMember)

/-- The human-readable section of the tracker comment, after the blob. -/
def trackerTemplateV1 (lastMessageId : List Char) (lastTimestamp : Nat)
    (lastAuthorIsTeamMember : Option Bool) : List Char :=
  "\n\n### Discord Sync Tracker\n\n- **Last Message ID:** `".toList
    ++ lastMessageId
    ++ "`\n- **Last Sync Timestamp:** ".toList
    ++ dateToIso lastTimestamp
    ++ (match lastAuthorIsTeamMember with
        | some b =>
            "\n- **Last Author is Team Member:** ".toList
              ++ (if b then "Yes".toList else "No".toList)
        | none => [])
    ++ "\n\n---\n*This tracker helps prevent duplicate message syncing from Discord*".toList

/-- `createSyncTrackerComment` from helpers.ts: always writes the
`version: 1` JSON blob between the marker and ` -->`, then the
human-readable section. -/
def createSyncTrackerComment (lastMessageId : List Char) (lastTimestamp : Nat)
    (lastAuthorIsTeamMember : Option Bool := none) : List Char :=
  syncMarkerSp ++ jrender (trackerJsonV1 lastMessageId lastTimestamp lastAuthorIsTeamMember)
    ++ ' ' :: '-' :: '-' :: '>'
    :: trackerTemplateV1 lastMessageId lastTimestamp lastAuthorIsTeamMember

/-- The record `parseSyncTrackerComment` returns (fields read off the
parsed blob; `none` models JavaScript `undefined`/Invalid Date). -/
structure ParsedSyncInfo where
  lastMessageId : Option (List Char)
  lastTimestamp : Option Nat
  lastAuthorIsTeamMember : Option Bool
deriving Repr, DecidableEq

/-- `parseSyncTrackerComment` from helpers.ts: regex-extract the blob,
`JSON.parse` it (`null` on failure), and read the fields. -/
def parseSyncTrackerComment (commentBody : List Char) : Option ParsedSyncInfo :=
  match findTrackerCapture commentBody with
  | none => none
  | some blob =>
      match JSONparse blob with
      | none => none
      | some syncData =>
          some { lastMessageId := asStr (jlookup syncData "lastMessageId".toList)
                 lastTimestamp :=
                   (asStr (jlookup syncData "lastTimestamp".toList)).bind newDateFromChars
                 lastAuthorIsTeamMember :=
                   asBool (jlookup syncData "lastAuthorIsTeamMember".toList) }

/-! ## The v2 codec (current helpers.ts, not among the sources)

The discord-sync workflow imports `SyncedMessage`, `createDiscordSyncComment`
and a `parseSyncTrackerComment` whose result also carries `messages` from
`./githubIssueManager/helpers`, but the helpers version defining them is
not among the source files; only this caller is.  They are therefore
modelled from the spec (§3, §4.2). -/

/-- Modelled from the spec: `SyncedMessage` (§3) — one mirrored Discord
message: id, author display name, content, ISO creation time, deep link. -/
structure SyncedMessage where
  id : List Char
  author : List Char
  content : List Char
  timestamp : List Char
  messageUrl : List Char
deriving Repr, DecidableEq

/-- The JSON object for one `SyncedMessage` inside the v2 blob. -/
def msgJson (m : SyncedMessage) : Json :=
  .jobj [("id".toList, .jstr m.id),
         ("author".toList, .jstr m.author),
         ("content".toList, .jstr m.content),
         ("timestamp".toList, .jstr m.timestamp),
         ("messageUrl".toList, .jstr m.messageUrl)]

/-- Modelled from the spec: the fields of the current (v2) tracker blob
(§3: version 2, cursor fields, optional membership flag, and the full
ordered message log). -/
def trackerFieldsV2 (messages : List SyncedMessage) (lastAuthorIsTeamMember : Option Bool)
    (fallbackNow : Nat) : List (List Char × Json) :=
  [("version".toList, .jnum 2),
   ("lastMessageId".toList,
     .jstr ((messages.getLast?).elim [] fun m => m.id)),
   ("lastTimestamp".toList,
     .jstr ((messages.getLast?).elim (dateToIso fallbackNow) fun m => m.timestamp))]
    ++ (match lastAuthorIsTeamMember with
        | some b => [("lastAuthorIsTeamMember".toList, .jbool b)]
        | none => [])
    ++ [("messages".toList, .jarr (messages.map msgJson))]

/-- The JSON value of the v2 blob. -/
def trackerJsonV2 (messages : List SyncedMessage) (lastAuthorIsTeamMember : Option Bool)
    (fallbackNow : Nat) : Json :=
  .jobj (trackerFieldsV2 messages lastAuthorIsTeamMember fallbackNow)

/-- Modelled from the spec: `createDiscordSyncComment` (§4.2 rendering) —
always emits the current schema version: the embedded v2 JSON state
between the marker and ` -->`, then the human-facing rendering (header
with the live message count, one block per message, footer linking the
thread).  The relative-time labels of §4.2 are rendered here as the
absolute stored timestamps; no claim under verification depends on the
label text. -/
def createDiscordSyncComment (threadUrl : List Char) (messages : List SyncedMessage)
    (lastAuthorIsTeamMember : Option Bool := none) (fallbackNow : Nat := 0) : List Char :=
  syncMarkerSp ++ jrender (trackerJsonV2 messages lastAuthorIsTeamMember fallbackNow)
    ++ ' ' :: '-' :: '-' :: '>'
    :: ("\n\n### Discord Thread Messages (".toList
      ++ natChars messages.length
      ++ ")\n\n".toList
      ++ (messages.foldr
          (fun m acc =>
            "- ".toList ++ m.timestamp ++ " [".toList ++ m.author ++ "](".toList
              ++ m.messageUrl ++ "): ".toList ++ m.content ++ "\n".toList ++ acc) [])
      ++ "\n---\n[View the Discord thread](".toList ++ threadUrl
      ++ ") — last synced ".toList ++ dateToIso fallbackNow)

/-- The record the current (v2-aware) `parseSyncTrackerComment` returns:
the v1 fields plus `messages` (absent on a v1 blob). -/
structure ParsedSyncInfoV2 where
  lastMessageId : Option (List Char)
  lastTimestamp : Option Nat
  lastAuthorIsTeamMember : Option Bool
  messages : Option (List SyncedMessage)
deriving Repr, DecidableEq

/-- Read one `SyncedMessage` object back out of the blob's array. -/
def msgOfJson (j : Json) : Option SyncedMessage :=
  match asStr (jlookup j "id".toList), asStr (jlookup j "author".toList),
      asStr (jlookup j "content".toList), asStr (jlookup j "timestamp".toList),
      asStr (jlookup j "messageUrl".toList) with
  | some i, some a, some c, some t, some u =>
      some { id := i, author := a, content := c, timestamp := t, messageUrl := u }
  | _, _, _, _, _ => none

/-- Read the blob's array elements back as `SyncedMessage`s. -/
def decodeMsgs : List Json → Option (List SyncedMessage)
  | [] => some []
  | j :: rest => do
      let m ← msgOfJson j
      let ms ← decodeMsgs rest
      some (m :: ms)

/-- Modelled from the spec: the current `parseSyncTrackerComment` (§4.2) —
reads both schema versions transparently: the v1 fields as before, and
`messages` returned verbatim when present (absent on a version-1 blob). -/
def parseSyncTrackerCommentV2 (commentBody : List Char) : Option ParsedSyncInfoV2 :=
  match findTrackerCapture commentBody with
  | none => none
  | some blob =>
      match JSONparse blob with
      | none => none
      | some syncData =>
          some { lastMessageId := asStr (jlookup syncData "lastMessageId".toList)
                 lastTimestamp :=
                   (asStr (jlookup syncData "lastTimestamp".toList)).bind newDateFromChars
                 lastAuthorIsTeamMember :=
                   asBool (jlookup syncData "lastAuthorIsTeamMember".toList)
                 messages :=
                   (asArr (jlookup syncData "messages".toList)).bind decodeMsgs }

/-! ### Round-trip facts for the tracker codec -/

theorem not_mem_natChars_brace (t : Nat) : '}' ∉ natChars t := by
  intro h
  exact absurd (natChars_all_digits t '}' h) (by decide)

theorem plain_append {a b : List Char} (ha : a.all plainChar = true)
    (hb : b.all plainChar = true) : (a ++ b).all plainChar = true := by
  simp [List.all_append, ha, hb]

theorem plain_cons {c : Char} {a : List Char} (hc : plainChar c = true)
    (ha : a.all plainChar = true) : ((c :: a).all plainChar) = true := by
  simp [List.all_cons, hc, ha]

theorem jrenderFields_head (f0 : List Char × Json) (fs : List (List Char × Json)) :
    ∃ t, jrenderFields (f0 :: fs) = '"' :: t := by
  obtain ⟨k, v⟩ := f0
  cases fs with
  | nil => exact ⟨escStr k ++ '"' :: ':' :: jrender v, by simp [jrenderFields]⟩
  | cons f1 fs' =>
      exact ⟨escStr k ++ '"' :: ':' :: (jrender v ++ ',' :: jrenderFields (f1 :: fs')),
        by simp [jrenderFields]⟩

theorem plain_jrender_str {s : List Char} (h : '}' ∉ s) :
    (jrender (.jstr s)).all plainChar = true := by
  rw [show jrender (.jstr s) = '"' :: (escStr s ++ ['"']) from by simp [jrender]]
  exact plain_cons (by decide) (plain_append (plain_escStr h) (by decide))

theorem plain_fieldsV1 (id : List Char) (t : Nat) (b : Option Bool) (hid : '}' ∉ id) :
    (jrenderFields (trackerFieldsV1 id t b)).all plainChar = true := by
  have hnum : (jrender (.jnum 1)).all plainChar = true := by
    rw [show jrender (.jnum 1) = intChars 1 from by simp [jrender], intChars]
    simp only [show ¬((1 : Int) < 0) from by omega, if_neg, List.nil_append,
      not_false_eq_true]
    exact plain_natChars _
  have hid' : (jrender (.jstr id)).all plainChar = true := plain_jrender_str hid
  have hts : (jrender (.jstr (dateToIso t))).all plainChar = true :=
    plain_jrender_str (by rw [dateToIso]; exact not_mem_natChars_brace t)
  cases b with
  | none =>
      rw [show trackerFieldsV1 id t none
            = [("version".toList, .jnum 1), ("lastMessageId".toList, .jstr id),
               ("lastTimestamp".toList, .jstr (dateToIso t))] from by
        simp [trackerFieldsV1]]
      rw [jrenderFields, jrenderFields, jrenderFields]
      refine plain_cons (by decide) (plain_append (by decide) ?_)
      refine plain_cons (by decide) (plain_cons (by decide) (plain_append hnum ?_))
      refine plain_cons (by decide) (plain_cons (by decide) (plain_append (by decide) ?_))
      refine plain_cons (by decide) (plain_cons (by decide) (plain_append hid' ?_))
      refine plain_cons (by decide) (plain_cons (by decide) (plain_append (by decide) ?_))
      exact plain_cons (by decide) (plain_cons (by decide) hts)
  | some bv =>
      rw [show trackerFieldsV1 id t (some bv)
            = [("version".toList, .jnum 1), ("lastMessageId".toList, .jstr id),
               ("lastTimestamp".toList, .jstr (dateToIso t)),
               ("lastAuthorIsTeamMember".toList, .jbool bv)] from by
        simp [trackerFieldsV1]]
      rw [jrenderFields, jrenderFields, jrenderFields, jrenderFields]
      have hb : (jrender (.jbool bv)).all plainChar = true := by
        cases bv with
        | false =>
            rw [show jrender (.jbool false) = ['f','a','l','s','e'] from by simp [jrender]]
            decide
        | true =>
            rw [show jrender (.jbool true) = ['t','r','u','e'] from by simp [jrender]]
            decide
      refine plain_cons (by decide) (plain_append (by decide) ?_)
      refine plain_cons (by decide) (plain_cons (by decide) (plain_append hnum ?_))
      refine plain_cons (by decide) (plain_cons (by decide) (plain_append (by decide) ?_))
      refine plain_cons (by decide) (plain_cons (by decide) (plain_append hid' ?_))
      refine plain_cons (by decide) (plain_cons (by decide) (plain_append (by decide) ?_))
      refine plain_cons (by decide) (plain_cons (by decide) (plain_append hts ?_))
      refine plain_cons (by decide) (plain_cons (by decide) (plain_append (by decide) ?_))
      exact plain_cons (by decide) (plain_cons (by decide) hb)

/-- The tracker regex recovers exactly the rendered v1 blob from a
freshly created tracker comment. -/
theorem findTracker_createV1 (id : List Char) (t : Nat) (b : Option Bool) (hid : '}' ∉ id) :
    findTrackerCapture (createSyncTrackerComment id t b)
      = some (jrender (trackerJsonV1 id t b)) := by
  have hobj : jrender (trackerJsonV1 id t b)
      = '{' :: (jrenderFields (trackerFieldsV1 id t b) ++ ['}']) := by
    simp [trackerJsonV1, jrender]
  have hne : ∃ f0 fs, trackerFieldsV1 id t b = f0 :: fs := by
    cases b with
    | none =>
        exact ⟨("version".toList, .jnum 1),
          [("lastMessageId".toList, .jstr id),
           ("lastTimestamp".toList, .jstr (dateToIso t))],
          by simp [trackerFieldsV1]⟩
    | some bv =>
        exact ⟨("version".toList, .jnum 1),
          [("lastMessageId".toList, .jstr id),
           ("lastTimestamp".toList, .jstr (dateToIso t)),
           ("lastAuthorIsTeamMember".toList, .jbool bv)],
          by simp [trackerFieldsV1]⟩
  obtain ⟨f0, fs, hffs⟩ := hne
  obtain ⟨tf, htf⟩ := jrenderFields_head f0 fs
  have hplain : (jrenderFields (trackerFieldsV1 id t b)).all plainChar = true :=
    plain_fieldsV1 id t b hid
  have htf' : jrenderFields (trackerFieldsV1 id t b) = '"' :: tf := by rw [hffs, htf]
  have hsafe : safeInterior tf = true := by
    apply safeInterior_of_plain
    rw [htf'] at hplain
    simp only [List.all_cons, Bool.and_eq_true] at hplain
    exact hplain.2
  have hshape : createSyncTrackerComment id t b
      = syncMarkerSp
          ++ '{' :: '"' :: (tf ++ '}' :: ' ' :: '-' :: '-' :: '>'
            :: trackerTemplateV1 id t b) := by
    rw [createSyncTrackerComment, hobj, htf']
    simp
  rw [hshape,
    findTrackerCapture_head (trackerMatchAt_blob '"' tf _ ⟨by decide, by decide⟩ hsafe)]
  rw [hobj, htf']

/-- Parsing a freshly created v1 tracker comment recovers the cursor, the
timestamp and the membership flag exactly. -/
theorem parse_create_v1 (id : List Char) (t : Nat) (b : Option Bool) (hid : '}' ∉ id) :
    parseSyncTrackerComment (createSyncTrackerComment id t b)
      = some ⟨some id, some t, b⟩ := by
  rw [parseSyncTrackerComment]
  simp only [findTracker_createV1 id t b hid, JSONparse_jrender]
  cases b with
  | none =>
      simp [trackerJsonV1, trackerFieldsV1, jlookup, asStr, asBool,
        newDateFromChars_dateToIso]
  | some bv =>
      simp [trackerJsonV1, trackerFieldsV1, jlookup, asStr, asBool,
        newDateFromChars_dateToIso]

/-! ### Round-trip facts for the v2 codec -/

/-- None of a message's five string fields contains `'}'` (no field can
then end the blob early or confuse the lazy close). -/
def msgNoBrace (m : SyncedMessage) : Prop :=
  '}' ∉ m.id ∧ '}' ∉ m.author ∧ '}' ∉ m.content ∧ '}' ∉ m.timestamp ∧ '}' ∉ m.messageUrl

theorem safeInterior_cons_of {c : Char} {t : List Char} (h1 : c ≠ '\n') (h2 : c ≠ '\r')
    (h3 : c = '}' → headIsSpace t = false) (h4 : safeInterior t = true) :
    safeInterior (c :: t) = true := by
  rw [safeInterior]
  simp only [Bool.and_eq_true, Bool.not_eq_true', Bool.or_eq_false_iff,
    Bool.and_eq_false_iff, decide_eq_false_iff_not]
  refine ⟨⟨⟨h1, h2⟩, ?_⟩, h4⟩
  by_cases hc : c = '}'
  · exact Or.inr (h3 hc)
  · exact Or.inl hc

theorem safe_plain_append {a b : List Char} (ha : a.all plainChar = true)
    (hb : safeInterior b = true) (hsp : headIsSpace b = false) :
    safeInterior (a ++ b) = true :=
  safeInterior_append (safeInterior_of_plain ha) hb hsp

theorem plain_msgFields (m : SyncedMessage) (hm : msgNoBrace m) :
    (jrenderFields [("id".toList, .jstr m.id),
                    ("author".toList, .jstr m.author),
                    ("content".toList, .jstr m.content),
                    ("timestamp".toList, .jstr m.timestamp),
                    ("messageUrl".toList, .jstr m.messageUrl)]).all plainChar = true := by
  obtain ⟨h1, h2, h3, h4, h5⟩ := hm
  rw [jrenderFields, jrenderFields, jrenderFields, jrenderFields, jrenderFields]
  refine plain_cons (by decide) (plain_append (by decide) ?_)
  refine plain_cons (by decide) (plain_cons (by decide)
    (plain_append (plain_jrender_str h1) ?_))
  refine plain_cons (by decide) (plain_cons (by decide) (plain_append (by decide) ?_))
  refine plain_cons (by decide) (plain_cons (by decide)
    (plain_append (plain_jrender_str h2) ?_))
  refine plain_cons (by decide) (plain_cons (by decide) (plain_append (by decide) ?_))
  refine plain_cons (by decide) (plain_cons (by decide)
    (plain_append (plain_jrender_str h3) ?_))
  refine plain_cons (by decide) (plain_cons (by decide) (plain_append (by decide) ?_))
  refine plain_cons (by decide) (plain_cons (by decide)
    (plain_append (plain_jrender_str h4) ?_))
  refine plain_cons (by decide) (plain_cons (by decide) (plain_append (by decide) ?_))
  exact plain_cons (by decide) (plain_cons (by decide) (plain_jrender_str h5))

/-- A rendered message object followed by a safe continuation that does
not start with a space is safe. -/
theorem safe_msgJson_append (m : SyncedMessage) (hm : msgNoBrace m) (b : List Char)
    (hb : safeInterior b = true) (hsp : headIsSpace b = false) :
    safeInterior (jrender (msgJson m) ++ b) = true := by
  rw [show jrender (msgJson m)
        = '{' :: (jrenderFields [("id".toList, .jstr m.id),
                    ("author".toList, .jstr m.author),
                    ("content".toList, .jstr m.content),
                    ("timestamp".toList, .jstr m.timestamp),
                    ("messageUrl".toList, .jstr m.messageUrl)] ++ ['}'])
      from by simp [msgJson, jrender]]
  rw [List.cons_append, List.append_assoc]
  refine safeInterior_cons_of (by decide) (by decide) (by intro h; exact absurd h (by decide))
    ?_
  refine safe_plain_append (plain_msgFields m hm) ?_ ?_
  · rw [List.singleton_append]
    exact safeInterior_cons_of (by decide) (by decide) (fun _ => hsp) hb
  · rfl

theorem getLast?_mem_self {α : Type} {l : List α} {m : α} (hg : l.getLast? = some m) :
    m ∈ l := by
  have hx : m ∈ l.getLast? := by rw [hg]; rfl
  obtain ⟨hne, heq⟩ := List.mem_getLast?_eq_getLast hx
  rw [heq]
  exact List.getLast_mem hne

theorem safe_msgItemsTail : ∀ (msgs : List SyncedMessage),
    (∀ m ∈ msgs, msgNoBrace m) →
    safeInterior (jrenderItems (msgs.map msgJson) ++ [']']) = true
  | [], _ => by decide
  | [m], h => by
      rw [show jrenderItems ([m].map msgJson) = jrender (msgJson m) from by
        simp [jrenderItems]]
      exact safe_msgJson_append m (h m (by simp)) [']'] (by decide) (by decide)
  | m :: m2 :: rest, h => by
      rw [show jrenderItems ((m :: m2 :: rest).map msgJson)
            = jrender (msgJson m) ++ ',' :: jrenderItems ((m2 :: rest).map msgJson) from by
        simp [jrenderItems]]
      have htail := safe_msgItemsTail (m2 :: rest) fun x hx => h x (by simp [hx])
      rw [List.append_assoc]
      refine safe_msgJson_append m (h m (by simp)) _ ?_ (by rfl)
      rw [List.cons_append]
      exact safeInterior_cons_of (by decide) (by decide)
        (by intro hcomma; exact absurd hcomma (by decide)) htail

/-- The rendered v2 fields have a safe interior. -/
theorem safe_fieldsV2 (msgs : List SyncedMessage) (latm : Option Bool) (now : Nat)
    (hmsgs : ∀ m ∈ msgs, msgNoBrace m) :
    safeInterior (jrenderFields (trackerFieldsV2 msgs latm now)) = true := by
  have hidv : '}' ∉ ((msgs.getLast?).elim [] fun m => m.id) := by
    cases hg : msgs.getLast? with
    | none => simp
    | some m =>
        obtain ⟨hbr, _, _, _, _⟩ := hmsgs m (getLast?_mem_self hg)
        exact hbr
  have htsv : '}' ∉ ((msgs.getLast?).elim (dateToIso now) fun m => m.timestamp) := by
    cases hg : msgs.getLast? with
    | none => simpa [dateToIso] using not_mem_natChars_brace now
    | some m =>
        obtain ⟨_, _, _, hbr, _⟩ := hmsgs m (getLast?_mem_self hg)
        exact hbr
  have hnum : (jrender (.jnum 2)).all plainChar = true := by
    rw [show jrender (.jnum 2) = intChars 2 from by simp [jrender], intChars]
    simp only [show ¬((2 : Int) < 0) from by omega, if_neg, List.nil_append,
      not_false_eq_true]
    exact plain_natChars _
  have harr : safeInterior (jrender (.jarr (msgs.map msgJson))) = true := by
    rw [show jrender (.jarr (msgs.map msgJson))
          = '[' :: (jrenderItems (msgs.map msgJson) ++ [']']) from by simp [jrender]]
    exact safeInterior_cons_of (by decide) (by decide)
      (by intro hx; exact absurd hx (by decide)) (safe_msgItemsTail msgs hmsgs)
  have hlastfield : safeInterior
      (jrenderFields [("messages".toList, .jarr (msgs.map msgJson))]) = true := by
    rw [jrenderFields]
    refine safeInterior_cons_of (by decide) (by decide)
      (by intro hx; exact absurd hx (by decide)) ?_
    refine safe_plain_append (by decide) ?_ ?_
    · exact safeInterior_cons_of (by decide) (by decide)
        (by intro hx; exact absurd hx (by decide))
        (safeInterior_cons_of (by decide) (by decide)
          (by intro hx; exact absurd hx (by decide)) harr)
    · rfl
  have hbool : ∀ bv : Bool, (jrender (.jbool bv)).all plainChar = true := by
    intro bv
    cases bv with
    | false =>
        rw [show jrender (.jbool false) = ['f','a','l','s','e'] from by simp [jrender]]
        decide
    | true =>
        rw [show jrender (.jbool true) = ['t','r','u','e'] from by simp [jrender]]
        decide
  have hstep : ∀ (k : List Char) (v : Json) (R : List Char),
      (escStr k).all plainChar = true → (jrender v).all plainChar = true →
      safeInterior R = true →
      safeInterior ('"' :: (escStr k ++ '"' :: ':' :: (jrender v ++ ',' :: R))) = true := by
    intro k v R hk hv hR
    refine safeInterior_cons_of (by decide) (by decide)
      (by intro hx; exact absurd hx (by decide)) ?_
    refine safe_plain_append hk ?_ (by rfl)
    refine safeInterior_cons_of (by decide) (by decide)
      (by intro hx; exact absurd hx (by decide)) ?_
    refine safeInterior_cons_of (by decide) (by decide)
      (by intro hx; exact absurd hx (by decide)) ?_
    refine safe_plain_append hv ?_ (by rfl)
    exact safeInterior_cons_of (by decide) (by decide)
      (by intro hx; exact absurd hx (by decide)) hR
  have hplainid : (jrender (.jstr ((msgs.getLast?).elim [] fun m => m.id))).all plainChar
      = true := plain_jrender_str hidv
  have hplaints : (jrender (.jstr ((msgs.getLast?).elim (dateToIso now)
      fun m => m.timestamp))).all plainChar = true := plain_jrender_str htsv
  cases latm with
  | none =>
      rw [show trackerFieldsV2 msgs none now
            = [("version".toList, .jnum 2),
               ("lastMessageId".toList,
                 .jstr ((msgs.getLast?).elim [] fun m => m.id)),
               ("lastTimestamp".toList,
                 .jstr ((msgs.getLast?).elim (dateToIso now) fun m => m.timestamp)),
               ("messages".toList, .jarr (msgs.map msgJson))] from by
        simp [trackerFieldsV2]]
      rw [jrenderFields, jrenderFields, jrenderFields]
      exact hstep _ _ _ (by decide) hnum
        (hstep _ _ _ (by decide) hplainid
          (hstep _ _ _ (by decide) hplaints hlastfield))
  | some bv =>
      rw [show trackerFieldsV2 msgs (some bv) now
            = [("version".toList, .jnum 2),
               ("lastMessageId".toList,
                 .jstr ((msgs.getLast?).elim [] fun m => m.id)),
               ("lastTimestamp".toList,
                 .jstr ((msgs.getLast?).elim (dateToIso now) fun m => m.timestamp)),
               ("lastAuthorIsTeamMember".toList, .jbool bv),
               ("messages".toList, .jarr (msgs.map msgJson))] from by
        simp [trackerFieldsV2]]
      rw [jrenderFields, jrenderFields, jrenderFields, jrenderFields]
      exact hstep _ _ _ (by decide) hnum
        (hstep _ _ _ (by decide) hplainid
          (hstep _ _ _ (by decide) hplaints
            (hstep _ _ _ (by decide) (hbool bv) hlastfield)))

theorem msgOfJson_msgJson (m : SyncedMessage) : msgOfJson (msgJson m) = some m := rfl

theorem decodeMsgs_map : ∀ msgs : List SyncedMessage,
    decodeMsgs (msgs.map msgJson) = some msgs
  | [] => rfl
  | m :: rest => by
      rw [List.map_cons, decodeMsgs, msgOfJson_msgJson, decodeMsgs_map rest]
      rfl

/-- The tracker regex recovers exactly the rendered v2 blob from a
freshly created sync comment. -/
theorem findTracker_createV2 (url : List Char) (msgs : List SyncedMessage)
    (latm : Option Bool) (now : Nat) (hmsgs : ∀ m ∈ msgs, msgNoBrace m) :
    findTrackerCapture (createDiscordSyncComment url msgs latm now)
      = some (jrender (trackerJsonV2 msgs latm now)) := by
  have hobj : jrender (trackerJsonV2 msgs latm now)
      = '{' :: (jrenderFields (trackerFieldsV2 msgs latm now) ++ ['}']) := by
    simp [trackerJsonV2, jrender]
  have hne : ∃ f0 fs, trackerFieldsV2 msgs latm now = f0 :: fs := by
    cases latm with
    | none =>
        exact ⟨("version".toList, .jnum 2),
          [("lastMessageId".toList, .jstr ((msgs.getLast?).elim [] fun m => m.id)),
           ("lastTimestamp".toList,
             .jstr ((msgs.getLast?).elim (dateToIso now) fun m => m.timestamp)),
           ("messages".toList, .jarr (msgs.map msgJson))],
          by simp [trackerFieldsV2]⟩
    | some bv =>
        exact ⟨("version".toList, .jnum 2),
          [("lastMessageId".toList, .jstr ((msgs.getLast?).elim [] fun m => m.id)),
           ("lastTimestamp".toList,
             .jstr ((msgs.getLast?).elim (dateToIso now) fun m => m.timestamp)),
           ("lastAuthorIsTeamMember".toList, .jbool bv),
           ("messages".toList, .jarr (msgs.map msgJson))],
          by simp [trackerFieldsV2]⟩
  obtain ⟨f0, fs, hffs⟩ := hne
  obtain ⟨tf, htf⟩ := jrenderFields_head f0 fs
  have hsafeAll : safeInterior (jrenderFields (trackerFieldsV2 msgs latm now)) = true :=
    safe_fieldsV2 msgs latm now hmsgs
  have htf' : jrenderFields (trackerFieldsV2 msgs latm now) = '"' :: tf := by rw [hffs, htf]
  have hsafe : safeInterior tf = true := by
    rw [htf'] at hsafeAll
    exact (safeInterior_cons hsafeAll).2.2.2
  have hshape : createDiscordSyncComment url msgs latm now
      = syncMarkerSp
          ++ '{' :: '"' :: (tf ++ '}' :: ' ' :: '-' :: '-' :: '>'
            :: ("\n\n### Discord Thread Messages (".toList
              ++ natChars msgs.length
              ++ ")\n\n".toList
              ++ (msgs.foldr
                  (fun m acc =>
                    "- ".toList ++ m.timestamp ++ " [".toList ++ m.author ++ "](".toList
                      ++ m.messageUrl ++ "): ".toList ++ m.content ++ "\n".toList ++ acc) [])
              ++ "\n---\n[View the Discord thread](".toList ++ url
              ++ ") — last synced ".toList ++ dateToIso now)) := by
    rw [createDiscordSyncComment, hobj, htf']
    simp
  rw [hshape,
    findTrackerCapture_head (trackerMatchAt_blob '"' tf _ ⟨by decide, by decide⟩ hsafe)]
  rw [hobj, htf']

/-- Parsing a freshly created v1 tracker comment with the v2-aware parser:
all v1 fields are read, and `messages` is absent. -/
theorem parseV2_create_v1 (id : List Char) (t : Nat) (b : Option Bool) (hid : '}' ∉ id) :
    parseSyncTrackerCommentV2 (createSyncTrackerComment id t b)
      = some ⟨some id, some t, b, none⟩ := by
  rw [parseSyncTrackerCommentV2]
  simp only [findTracker_createV1 id t b hid, JSONparse_jrender]
  cases b with
  | none =>
      simp [trackerJsonV1, trackerFieldsV1, jlookup, asStr, asBool, asArr,
        newDateFromChars_dateToIso]
  | some bv =>
      simp [trackerJsonV1, trackerFieldsV1, jlookup, asStr, asBool, asArr,
        newDateFromChars_dateToIso]

/-- Parsing a freshly created v2 sync comment: the cursor fields are the
last message's, the membership flag round-trips, and the message log is
returned verbatim. -/
theorem parseV2_createDiscord (url : List Char) (msgs : List SyncedMessage)
    (latm : Option Bool) (now : Nat) (hmsgs : ∀ m ∈ msgs, msgNoBrace m) :
    parseSyncTrackerCommentV2 (createDiscordSyncComment url msgs latm now)
      = some ⟨some ((msgs.getLast?).elim [] fun m => m.id),
              newDateFromChars ((msgs.getLast?).elim (dateToIso now) fun m => m.timestamp),
              latm, some msgs⟩ := by
  rw [parseSyncTrackerCommentV2]
  simp only [findTracker_createV2 url msgs latm now hmsgs, JSONparse_jrender]
  cases latm with
  | none =>
      simp [trackerJsonV2, trackerFieldsV2, jlookup, asStr, asBool, asArr, decodeMsgs_map]
  | some bv =>
      simp [trackerJsonV2, trackerFieldsV2, jlookup, asStr, asBool, asArr, decodeMsgs_map]

/-! ## The thread reference resolver (helpers.ts `extractDiscordThreadId`)

The source matches `/https:\/\/discord\.com\/channels\/\d+\/(\d+)/` on the
issue body and returns the capture group, or `null` when the body is
absent/empty or nothing matches.  The model below implements the regex's
leftmost-match semantics: `urlMatchAt` is one anchored attempt (literal
head, a maximal nonempty digit run, `/`, the captured maximal nonempty
digit run), `scanUrl` scans start positions left to right. -/

/-- The literal part of the Discord-URL pattern. -/
def discordUrlHead : List Char :=
  ['h','t','t','p','s',':','/','/','d','i','s','c','o','r','d','.','c','o','m',
   '/','c','h','a','n','n','e','l','s','/']

/-- One anchored attempt of the Discord-URL regex; returns the thread-id
capture group. -/
def urlMatchAt (s : List Char) : Option (List Char) :=
  match stripLead discordUrlHead s with
  | none => none
  | some r =>
      match grabDigits r with
      | ([], _) => none
      | (_ :: _, r2) =>
          match r2 with
          | '/' :: r3 =>
              (match grabDigits r3 with
               | ([], _) => none
               | (tid, _) => some tid)
          | _ => none

/-- Leftmost match of the Discord-URL regex over the whole body. -/
def scanUrl : List Char → Option (List Char)
  | [] => none
  | s@(_ :: t) =>
      match urlMatchAt s with
      | some tid => some tid
      | none => scanUrl t

/-- `extractDiscordThreadId` from helpers.ts (`null` body and empty body
are falsy and short-circuit to `null`). -/
def extractDiscordThreadId : Option (List Char) → Option (List Char)
  | none => none
  | some body => if body = [] then none else scanUrl body

/-! ## The per-issue sync step (`syncIssueMessagesStep`, discord-sync workflow)

External capabilities are an explicit oracle environment; every fallible
call is an `Except` value — a `.error` models a thrown/rejected call.  A
trace records the two observable effects the claims speak about: which
cursor the message fetch was called with, and which message log was
handed to the sync-comment writer. -/

/-- A GitHub issue as the steps receive it. -/
structure IssueInput where
  number : Nat
  title : List Char
  body : Option (List Char)
  updatedAt : List Char
  htmlUrl : List Char
  labels : List (List Char)
deriving Repr, DecidableEq

/-- A GitHub issue comment as the steps see it (`user` may be absent). -/
structure GHComment where
  id : Nat
  body : Option (List Char)
  userType : Option (List Char)
  userLogin : Option (List Char)
deriving Repr, DecidableEq

/-- A fetched Discord message. -/
structure DMsg where
  id : List Char
  authorId : List Char
  authorUsername : List Char
  authorIsBot : Bool
  content : List Char
  createdAt : Nat
  url : List Char
deriving Repr, DecidableEq

/-- A fetched Discord guild member (role names, as the code matches). -/
structure GuildMember where
  roles : List (List Char)
deriving Repr, DecidableEq

/-- A fetched Discord channel. -/
structure Channel where
  isThread : Bool
  guildId : Option (List Char)
deriving Repr, DecidableEq

/-- The oracle environment of external capabilities. -/
structure SyncEnv where
  connectDiscord : Except (List Char) Unit
  fetchChannel : List Char → Except (List Char) Channel
  listComments : Nat → Except (List Char) (List GHComment)
  fetchMessages : List Char → Option (List Char) → Except (List Char) (List DMsg)
  fetchGuildMember : List Char → List Char → Except (List Char) GuildMember
  updateComment : Nat → List Char → Except (List Char) Unit
  createComment : Nat → List Char → Except (List Char) Unit
  addLabels : Nat → List (List Char) → Except (List Char) Unit
  roster : List (List Char)

/-- The step's structured output. -/
structure SyncIssueResult where
  issueNumber : Nat
  hasDiscordThread : Bool
  threadId : Option (List Char)
  messagesSynced : Nat
  success : Bool
  error : Option (List Char)
deriving Repr, DecidableEq

/-- The observable effects of one run of the step. -/
structure SyncTrace where
  fetchedAfter : Option (Option (List Char))
  wroteComment : Option (List SyncedMessage × Option Bool × Bool)
deriving Repr, DecidableEq

/-- The empty trace (no fetch reached, nothing written). -/
def emptyTrace : SyncTrace := { fetchedAfter := none, wroteComment := none }

/-- Conversion of a fetched message to the persisted shape. -/
def toSyncedMessage (m : DMsg) : SyncedMessage :=
  { id := m.id, author := m.authorUsername, content := m.content,
    timestamp := dateToIso m.createdAt, messageUrl := m.url }

/-- The marker probe `body?.includes('<!-- DISCORD_SYNC:')` on a comment. -/
def hasMarker (c : GHComment) : Bool :=
  match c.body with
  | some b => containsSeq syncMarkerProbe b
  | none => false

/-- The eligibility filter of the step: non-empty content, non-bot author. -/
def eligibleMsg (m : DMsg) : Bool := 0 < m.content.length && !m.authorIsBot

/-- The step's sort: ascending by creation time (stable, as `Array.sort`). -/
def sortByCreatedAt (l : List DMsg) : List DMsg :=
  List.insertionSort (fun a b => a.createdAt ≤ b.createdAt) l

/-- The prior-state load of the step: the first marker-bearing comment,
parsed with the v2-aware parser; parse failure or absence is no prior
state (`info.messages || []` is the `getD`). -/
def parsedStateOf (comments : List GHComment) :
    Option (List Char) × Option Nat × Option Bool × List SyncedMessage :=
  match comments.find? hasMarker with
  | some c =>
      match parseSyncTrackerCommentV2 (c.body.getD []) with
      | some info =>
          (info.lastMessageId, some c.id, info.lastAuthorIsTeamMember,
            info.messages.getD [])
      | none => (none, none, none, [])
  | none => (none, none, none, [])

/-- The cursor the message fetch is called with: the persisted last
message id when truthy (`fetchOptions.after`), otherwise no cursor. -/
def fetchAfterOf (comments : List GHComment) : Option (List Char) :=
  match (parsedStateOf comments).1 with
  | some s => if s.length ≠ 0 then some s else none
  | none => none

/-- The step's selection of new messages: the eligible fetched messages,
sorted ascending by creation time. -/
def newMessagesOf (messages : List DMsg) : List DMsg :=
  sortByCreatedAt (messages.filter eligibleMsg)

/-- The merge step: when new messages arrived, append them (converted)
after the existing log and re-check the last author's guild roles (a
failed role fetch keeps the previous flag). -/
def stepStateOf (env : SyncEnv) (thread : Channel) (previous : Option Bool)
    (existing : List SyncedMessage) (newMessages : List DMsg) :
    Option Bool × List SyncedMessage :=
  match newMessages.getLast? with
  | none => (previous, existing)
  | some lastMessage =>
      let all := existing ++ newMessages.map toSyncedMessage
      let latm :=
        match thread.guildId with
        | none => previous
        | some gid =>
            match env.fetchGuildMember gid lastMessage.authorId with
            | .ok member =>
                some (member.roles.any fun r =>
                  r == "Admin".toList || r == "Mastra Team".toList)
            | .error _ => previous
      (latm, all)

/-- What the write-back hands to the sync-comment writer: nothing when
the merged log is empty, otherwise the log, the flag, and whether an
existing tracker comment was updated rather than a new one created. -/
def wroteOf (stepState : Option Bool × List SyncedMessage) (commentId : Option Nat) :
    Option (List SyncedMessage × Option Bool × Bool) :=
  match stepState.2 with
  | [] => none
  | _ :: _ => some (stepState.2, stepState.1, commentId.isSome)

/-- The `try` body of `syncIssueMessagesStep`, after the thread id has been
resolved: connect, fetch the channel, load prior state, fetch new
messages, merge, write back; `.error` is a raised exception the caller
catches. -/
def syncIssueBody (env : SyncEnv) (inputData : IssueInput) (threadId : List Char) :
    Except (List Char) (SyncIssueResult × SyncTrace) := do
  let _ ← env.connectDiscord
  let thread ← env.fetchChannel threadId
  if !thread.isThread then
    return ({ issueNumber := inputData.number, hasDiscordThread := true,
              threadId := some threadId, messagesSynced := 0, success := false,
              error := some ("Channel ".toList ++ threadId
                ++ " is not a thread".toList) },
            emptyTrace)
  else
    let comments ← env.listComments inputData.number
    let parsedState := parsedStateOf comments
    let syncTrackerCommentId := parsedState.2.1
    let previousAuthorIsTeamMember := parsedState.2.2.1
    let existingMessages := parsedState.2.2.2
    let fetchAfter := fetchAfterOf comments
    let messages ← env.fetchMessages threadId fetchAfter
    let newMessages := newMessagesOf messages
    let stepState :=
      stepStateOf env thread previousAuthorIsTeamMember existingMessages newMessages
    let lastAuthorIsTeamMember := stepState.1
    let allMessages := stepState.2
    let threadUrl := "https://discord.com/channels/".toList
      ++ (thread.guildId.getD "undefined".toList) ++ "/".toList ++ threadId
    let wrote ←
      match allMessages with
      | [] => pure none
      | _ :: _ => do
          let commentBody :=
            createDiscordSyncComment threadUrl allMessages lastAuthorIsTeamMember
          match syncTrackerCommentId with
          | some cid => do
              let _ ← env.updateComment cid commentBody
              pure (some (allMessages, lastAuthorIsTeamMember, true))
          | none => do
              let _ ← env.createComment inputData.number commentBody
              pure (some (allMessages, lastAuthorIsTeamMember, false))
    return ({ issueNumber := inputData.number, hasDiscordThread := true,
              threadId := some threadId, messagesSynced := newMessages.length,
              success := true, error := none },
            { fetchedAfter := some fetchAfter, wroteComment := wrote })

/-- `syncIssueMessagesStep`: resolve the thread reference, then run the
`try` body; any raised exception is caught and converted into the
structured error result. -/
def syncIssueMessagesStep (env : SyncEnv) (inputData : IssueInput) :
    SyncIssueResult × SyncTrace :=
  match extractDiscordThreadId inputData.body with
  | none =>
      ({ issueNumber := inputData.number, hasDiscordThread := false, threadId := none,
         messagesSynced := 0, success := true, error := none }, emptyTrace)
  | some threadId =>
      match syncIssueBody env inputData threadId with
      | .ok r => r
      | .error e =>
          ({ issueNumber := inputData.number, hasDiscordThread := true,
             threadId := some threadId, messagesSynced := 0, success := false,
             error := some e }, emptyTrace)

/-! ## The batch driver (`discordSyncWorkflow`) -/

/-- The run-level aggregate the workflow returns. -/
structure WorkflowSummary where
  issuesProcessed : Nat
  issuesWithThreads : Nat
  messagesSynced : Nat
  issuesSkipped : Nat
  errors : Nat
  success : Bool
deriving Repr, DecidableEq

/-- The status labels an issue must carry to stay in the working set. -/
def requiredLabels : List (List Char) :=
  ["status: waiting for author".toList, "status: needs reproduction".toList]

/-- The label filter of the driver's map step. -/
def hasRequiredLabel (issue : IssueInput) : Bool :=
  issue.labels.any fun l => requiredLabels.contains l

/-- The final map step: aggregate the per-issue structured results. -/
def aggregateSyncResults (results : List SyncIssueResult) : WorkflowSummary :=
  let issuesWithThreads := (results.filter fun r => r.hasDiscordThread).length
  let messagesSynced := results.foldl (fun s r => s + r.messagesSynced) 0
  let issuesSkipped := (results.filter fun r => !r.hasDiscordThread).length
  let errors := (results.filter fun r => !r.success).length
  { issuesProcessed := results.length, issuesWithThreads := issuesWithThreads,
    messagesSynced := messagesSynced, issuesSkipped := issuesSkipped,
    errors := errors, success := errors == 0 }

/-- `discordSyncWorkflow` after the fetch step: filter the fetched issues
by status label, fan the per-issue step out over them, aggregate. -/
def discordSyncWorkflow (env : SyncEnv) (fetchedIssues : List IssueInput) :
    WorkflowSummary :=
  aggregateSyncResults
    (((fetchedIssues.filter hasRequiredLabel).map
      fun i => (syncIssueMessagesStep env i).1))

/-! ## The follow-up decision step (`checkCommentAuthorStep`,
github-issue-manager workflow) -/

/-- The reason recorded with the label decision. -/
inductive LabelReason where
  | github_comment
  | sync_tracker
  | both
  | reasonNone
deriving Repr, DecidableEq

/-- The step's structured output. -/
structure CheckResult where
  needsFollowUp : Bool
  lastCommentAuthor : Option (List Char)
  labelAdded : Bool
  labelReason : Option LabelReason
deriving Repr, DecidableEq

/-- Whether the step reached the `addLabels` call (the label mutation). -/
structure CheckTrace where
  labelAttempted : Bool
deriving Repr, DecidableEq

/-- Check 1 of the step: the last non-bot GitHub comment's author and
whether that author is outside the member roster. -/
def ghSignalOf (roster : List (List Char)) (comments : List GHComment) :
    Bool × Option (List Char) :=
  let humanComments := comments.filter fun c => !(c.userType == some "Bot".toList)
  match humanComments.getLast? with
  | none => (false, none)
  | some lastComment =>
      match (match lastComment.userLogin with
             | some l => if l.length ≠ 0 then some l else none
             | none => none) with
      | none => (false, none)
      | some a => (!(roster.contains a), some a)

/-- Check 2 of the step: the sync-tracker signal — the first
marker-bearing comment parses and carries `lastAuthorIsTeamMember: false`. -/
def stSignalOf (comments : List GHComment) : Bool :=
  match comments.find? hasMarker with
  | none => false
  | some c =>
      match parseSyncTrackerComment (c.body.getD []) with
      | none => false
      | some info => info.lastAuthorIsTeamMember == some false

/-- The recorded reason, from the two signals. -/
def labelReasonOf (gh st : Bool) : LabelReason :=
  if gh && st then .both
  else if gh then .github_comment
  else if st then .sync_tracker
  else .reasonNone

/-- `checkCommentAuthorStep`: evaluate both signals over the issue's
comments, OR them, and add the follow-up label when either fires; every
failure path returns the structured no-op result. -/
def checkCommentAuthorStep (env : SyncEnv) (inputData : IssueInput) :
    CheckResult × CheckTrace :=
  match env.listComments inputData.number with
  | .error _ =>
      ({ needsFollowUp := false, lastCommentAuthor := none, labelAdded := false,
         labelReason := some .reasonNone }, { labelAttempted := false })
  | .ok comments =>
      let gh := (ghSignalOf env.roster comments).1
      let lastAuthor := (ghSignalOf env.roster comments).2
      let st := stSignalOf comments
      let labelReason := labelReasonOf gh st
      if gh || st then
        match env.addLabels inputData.number ["status: needs follow up".toList] with
        | .ok _ =>
            ({ needsFollowUp := true, lastCommentAuthor := lastAuthor,
               labelAdded := true, labelReason := some labelReason },
             { labelAttempted := true })
        | .error _ =>
            ({ needsFollowUp := true, lastCommentAuthor := lastAuthor,
               labelAdded := false, labelReason := some labelReason },
             { labelAttempted := true })
      else
        ({ needsFollowUp := false, lastCommentAuthor := lastAuthor,
           labelAdded := false, labelReason := some .reasonNone },
         { labelAttempted := false })

/-! ### Characterizing the URL scanner -/

theorem stripLead_eq_some : ∀ {p s r : List Char}, stripLead p s = some r → s = p ++ r := by
  intro p
  induction p with
  | nil =>
      intro s r h
      rw [stripLead] at h
      simpa using h
  | cons p ps ih =>
      intro s r h
      cases s with
      | nil => rw [stripLead] at h; exact absurd h (by simp)
      | cons c cs =>
          rw [stripLead] at h
          split_ifs at h with hpc
          · rw [List.cons_append, ← ih h, hpc]

theorem grabDigits_spec : ∀ s : List Char,
    s = (grabDigits s).1 ++ (grabDigits s).2
      ∧ (∀ c ∈ (grabDigits s).1, isDig c = true)
      ∧ stopsDigits (grabDigits s).2
  | [] => by exact ⟨rfl, by intro c hc; simp [grabDigits] at hc, trivial⟩
  | c :: t => by
      obtain ⟨h1, h2, h3⟩ := grabDigits_spec t
      by_cases hc : isDig c = true
      · rw [show grabDigits (c :: t) = (c :: (grabDigits t).1, (grabDigits t).2) from by
          simp [grabDigits, hc]]
        refine ⟨by simpa using h1, ?_, h3⟩
        intro x hx
        rcases List.mem_cons.mp hx with rfl | hx
        · exact hc
        · exact h2 x hx
      · rw [show grabDigits (c :: t) = ([], c :: t) from by
          simp [grabDigits, hc]]
        exact ⟨rfl, by simp, by simpa [stopsDigits] using hc⟩

theorem urlMatchAt_some {s tid : List Char} (h : urlMatchAt s = some tid) :
    ∃ g r, s = discordUrlHead ++ (g ++ '/' :: (tid ++ r)) ∧ g ≠ [] ∧ tid ≠ []
      ∧ (∀ c ∈ g, isDig c = true) ∧ (∀ c ∈ tid, isDig c = true) ∧ stopsDigits r := by
  unfold urlMatchAt at h
  rcases hst : stripLead discordUrlHead s with _ | r
  all_goals rw [hst] at h
  all_goals dsimp only at h
  · simp at h
  rcases hgr : grabDigits r with ⟨g, r2⟩
  rw [hgr] at h
  rcases g with _ | ⟨g0, g'⟩
  · simp at h
  rcases r2 with _ | ⟨c, r3⟩
  · dsimp only at h; simp at h
  dsimp only at h
  by_cases hc : c = '/'
  · subst hc
    split at h
    · rename_i r3x heq
      injection heq with h1 h2
      subst h2
      rcases hg3 : grabDigits r3 with ⟨ds, r'⟩
      rw [hg3] at h
      rcases ds with _ | ⟨d0, ds'⟩
      · simp at h
      simp only [Option.some.injEq] at h
      subst h
      have hs := stripLead_eq_some hst
      have hr := grabDigits_spec r
      have hr3 := grabDigits_spec r3
      rw [hgr] at hr
      rw [hg3] at hr3
      refine ⟨g0 :: g', r', ?_, by simp, by simp, hr.2.1, hr3.2.1, hr3.2.2⟩
      rw [hs, hr.1]
      simp only [List.cons_append, List.append_assoc]
      rw [show r3 = (d0 :: ds') ++ r' from hr3.1]
      simp
    · simp at h
  · split at h
    · rename_i x heq
      injection heq with h1 h2
      exact absurd h1 hc
    · simp at h

theorem urlMatchAt_of_shape (g tid r : List Char) (hg : g ≠ []) (htid : tid ≠ [])
    (hdg : ∀ c ∈ g, isDig c = true) (hdt : ∀ c ∈ tid, isDig c = true)
    (hstop : stopsDigits r) :
    urlMatchAt (discordUrlHead ++ (g ++ '/' :: (tid ++ r))) = some tid := by
  unfold urlMatchAt
  rw [stripLead_self]
  have h1 : grabDigits (g ++ '/' :: (tid ++ r)) = (g, '/' :: (tid ++ r)) :=
    grabDigits_run g hdg _ (stopsDigits_cons (by decide) _)
  have h2 : grabDigits (tid ++ r) = (tid, r) := grabDigits_run tid hdt r hstop
  show (match grabDigits (g ++ '/' :: (tid ++ r)) with
        | ([], _) => none
        | (_ :: _, r2) =>
            match r2 with
            | '/' :: r3 =>
                (match grabDigits r3 with
                 | ([], _) => none
                 | (tid, _) => some tid)
            | _ => none) = some tid
  rw [h1]
  rcases g with _ | ⟨g0, g'⟩
  · exact absurd rfl hg
  show (match grabDigits (tid ++ r) with
        | ([], _) => none
        | (tid, _) => some tid) = some tid
  rw [h2]
  rcases tid with _ | ⟨t0, t'⟩
  · exact absurd rfl htid
  rfl

theorem scanUrl_iff : ∀ (body tid : List Char),
    scanUrl body = some tid ↔
      ∃ i, urlMatchAt (body.drop i) = some tid ∧ ∀ j < i, urlMatchAt (body.drop j) = none := by
  intro body
  induction body with
  | nil =>
      intro tid
      constructor
      · intro h; simp [scanUrl] at h
      · rintro ⟨i, hi, _⟩
        rw [List.drop_nil] at hi
        have : urlMatchAt ([] : List Char) = none := by decide
        rw [this] at hi
        exact Option.noConfusion hi
  | cons c t ih =>
      intro tid
      rw [scanUrl]
      rcases hm : urlMatchAt (c :: t) with _ | cap
      · constructor
        · intro h
          obtain ⟨i, hi, hmin⟩ := (ih tid).mp h
          exact ⟨i + 1, by simpa using hi, by
            intro j hj
            cases j with
            | zero => simpa using hm
            | succ j' => simpa using hmin j' (by omega)⟩
        · rintro ⟨i, hi, hmin⟩
          cases i with
          | zero => rw [List.drop_zero] at hi; rw [hm] at hi; exact Option.noConfusion hi
          | succ i' =>
              refine (ih tid).mpr ⟨i', by simpa using hi, ?_⟩
              intro j hj
              have := hmin (j + 1) (by omega)
              simpa using this
      · constructor
        · intro h
          refine ⟨0, ?_, by omega⟩
          rw [List.drop_zero, hm, ← h]
        · rintro ⟨i, hi, hmin⟩
          cases i with
          | zero => rw [List.drop_zero, hm] at hi; exact hi
          | succ i' =>
              have := hmin 0 (by omega)
              rw [List.drop_zero, hm] at this
              exact Option.noConfusion this

theorem extract_some_eq_scan (body : List Char) :
    extractDiscordThreadId (some body) = scanUrl body := by
  cases body with
  | nil => rfl
  | cons c t => simp [extractDiscordThreadId, scanUrl]

/-! ### Running the sync step's do-chain -/

theorem except_bind_ok {α β : Type} {x : Except (List Char) α}
    {f : α → Except (List Char) β} {b : β}
    (h : (x >>= f) = Except.ok b) : ∃ a, x = Except.ok a ∧ f a = Except.ok b := by
  cases x with
  | error e =>
      rw [show ((Except.error e : Except (List Char) α) >>= f)
          = (Except.error e : Except (List Char) β) from rfl] at h
      exact absurd h (by simp)
  | ok a =>
      rw [show ((Except.ok a : Except (List Char) α) >>= f) = f a from rfl] at h
      exact ⟨a, rfl, h⟩

theorem except_bind_ok_eq {α β : Type} (a : α) (f : α → Except (List Char) β) :
    ((Except.ok a : Except (List Char) α) >>= f) = f a := rfl

theorem except_pure_eq {β : Type} (b : β) :
    (pure b : Except (List Char) β) = Except.ok b := rfl

/-- Every `.ok` outcome of the body is either the success shape or the
not-a-thread error shape. -/
theorem syncIssueBody_shape (env : SyncEnv) (i : IssueInput) (tid : List Char)
    (r : SyncIssueResult) (tr : SyncTrace)
    (h : syncIssueBody env i tid = .ok (r, tr)) :
    (r.success = true ∧ r.error = none)
    ∨ (r.success = false ∧ r.messagesSynced = 0 ∧ ∃ m, r.error = some m) := by
  rw [syncIssueBody] at h
  obtain ⟨u, hc, h⟩ := except_bind_ok h
  obtain ⟨thread, hch, h⟩ := except_bind_ok h
  split at h
  · simp only [except_pure_eq, Except.ok.injEq, Prod.mk.injEq] at h
    obtain ⟨h1, h2⟩ := h
    subst h1
    exact Or.inr ⟨rfl, rfl, _, rfl⟩
  · obtain ⟨comments, hcm, h⟩ := except_bind_ok h
    obtain ⟨messages, hmsg, h⟩ := except_bind_ok h
    split at h
    all_goals dsimp only at h
    all_goals split at h
    all_goals
      first
      | (obtain ⟨uu, huu, h⟩ := except_bind_ok h
         obtain ⟨y, hy, h⟩ := except_bind_ok h
         simp only [except_pure_eq, Except.ok.injEq, Prod.mk.injEq] at h
         obtain ⟨h1, h2⟩ := h
         subst h1
         exact Or.inl ⟨rfl, rfl⟩)
      | (obtain ⟨y, hy, h⟩ := except_bind_ok h
         simp only [except_pure_eq, Except.ok.injEq, Prod.mk.injEq] at h
         obtain ⟨h1, h2⟩ := h
         subst h1
         exact Or.inl ⟨rfl, rfl⟩)

/-- When the referenced channel is not a thread, the body returns the
structured not-a-thread error result (no exception). -/
theorem syncIssueBody_not_thread (env : SyncEnv) (i : IssueInput) (tid : List Char)
    (ch : Channel) (hc : env.connectDiscord = .ok ())
    (hch : env.fetchChannel tid = .ok ch) (ht : ch.isThread = false) :
    syncIssueBody env i tid = .ok
      ({ issueNumber := i.number, hasDiscordThread := true, threadId := some tid,
         messagesSynced := 0, success := false,
         error := some ("Channel ".toList ++ tid ++ " is not a thread".toList) },
       emptyTrace) := by
  rw [syncIssueBody, hc]
  simp only [except_bind_ok_eq]
  rw [hch]
  simp only [except_bind_ok_eq]
  rw [ht]
  rfl

/-- A full successful run of the body, with every external call pinned:
the result counts the filtered sorted new messages, and the trace records
the cursor used and the log handed to the writer. -/
theorem syncIssueBody_run (env : SyncEnv) (i : IssueInput) (tid : List Char)
    (ch : Channel) (comments : List GHComment) (msgs : List DMsg)
    (hc : env.connectDiscord = .ok ())
    (hch : env.fetchChannel tid = .ok ch)
    (ht : ch.isThread = true)
    (hcm : env.listComments i.number = .ok comments)
    (hmsg : env.fetchMessages tid (fetchAfterOf comments) = .ok msgs)
    (hcc : ∀ b, env.createComment i.number b = .ok ())
    (huc : ∀ cid b, env.updateComment cid b = .ok ()) :
    syncIssueBody env i tid = .ok
      ({ issueNumber := i.number, hasDiscordThread := true, threadId := some tid,
         messagesSynced := (newMessagesOf msgs).length, success := true, error := none },
       { fetchedAfter := some (fetchAfterOf comments),
         wroteComment :=
           wroteOf
             (stepStateOf env ch (parsedStateOf comments).2.2.1
               (parsedStateOf comments).2.2.2 (newMessagesOf msgs))
             (parsedStateOf comments).2.1 }) := by
  rw [syncIssueBody, hc]
  simp only [except_bind_ok_eq]
  rw [hch]
  simp only [except_bind_ok_eq]
  rw [ht]
  rw [show (!true) = false from rfl]
  rw [if_neg (by simp)]
  rw [hcm]
  simp only [except_bind_ok_eq]
  rw [hmsg]
  simp only [except_bind_ok_eq]
  rcases hall : (stepStateOf env ch (parsedStateOf comments).2.2.1
      (parsedStateOf comments).2.2.2 (newMessagesOf msgs)).2 with _ | ⟨m, ms⟩
  · simp [wroteOf, hall, except_pure_eq, except_bind_ok_eq]
  · rcases hcid : (parsedStateOf comments).2.1 with _ | cid
    · simp [wroteOf, hall, hcid, except_pure_eq, except_bind_ok_eq, hcc]
    · simp [wroteOf, hall, hcid, except_pure_eq, except_bind_ok_eq, huc]

/-! ## The claims -/

/-- C8: for every issue body (including the null and empty bodies),
`extractDiscordThreadId` returns the thread-id capture group of the first
substring matching `https://discord.com/channels/<digits>/<digits>` and
`none` when the body is null, empty, or matchless; being a total
function, it never throws.  The match semantics is pinned both ways: a
reported capture comes from the leftmost matching position, a match is
exactly a literal head followed by a nonempty guild-id digit run, `/`,
and the captured maximal nonempty thread-id digit run. -/
theorem C8_extractDiscordThreadId_first_match :
    extractDiscordThreadId none = none
    ∧ extractDiscordThreadId (some []) = none
    ∧ (∀ body : List Char, extractDiscordThreadId (some body) = scanUrl body)
    ∧ (∀ body tid : List Char, scanUrl body = some tid ↔
        ∃ i, urlMatchAt (List.drop i body) = some tid
          ∧ ∀ j < i, urlMatchAt (List.drop j body) = none)
    ∧ (∀ s tid : List Char, urlMatchAt s = some tid →
        ∃ g r, s = discordUrlHead ++ (g ++ '/' :: (tid ++ r)) ∧ g ≠ [] ∧ tid ≠ []
          ∧ (∀ c ∈ g, isDig c = true) ∧ (∀ c ∈ tid, isDig c = true) ∧ stopsDigits r)
    ∧ (∀ g tid r : List Char, g ≠ [] → tid ≠ [] → (∀ c ∈ g, isDig c = true) →
        (∀ c ∈ tid, isDig c = true) → stopsDigits r →
        urlMatchAt (discordUrlHead ++ (g ++ '/' :: (tid ++ r))) = some tid) := by
  refine ⟨rfl, rfl, extract_some_eq_scan, scanUrl_iff, ?_, ?_⟩
  · intro s tid h
    exact urlMatchAt_some h
  · intro g tid r h1 h2 h3 h4 h5
    exact urlMatchAt_of_shape g tid r h1 h2 h3 h4 h5

/-- C10: round-trip of the v1 sync-state codec: for every message id
without `'}'`, every timestamp and every optional membership flag,
parsing the freshly created tracker comment recovers exactly the id, the
timestamp and the flag (`none` when it was omitted). -/
theorem C10_codec_round_trip (id : List Char) (t : Nat) (b : Option Bool)
    (hid : '}' ∉ id) :
    parseSyncTrackerComment (createSyncTrackerComment id t b)
      = some ⟨some id, some t, b⟩ :=
  parse_create_v1 id t b hid

theorem C10_codec_round_trip_witness :
    parseSyncTrackerComment (createSyncTrackerComment "123".toList 5 (some false))
      = some ⟨some "123".toList, some 5, some false⟩ :=
  C10_codec_round_trip "123".toList 5 (some false) (by decide)

/-- C6: the sync-tracker follow-up signal fires iff the first
marker-bearing comment parses and its `lastAuthorIsTeamMember` is
exactly `false`; a missing tracker comment, an unparsable one, and any
other field value (including absent) all leave the signal false. -/
theorem C6_sync_tracker_signal (comments : List GHComment) :
    (stSignalOf comments = true ↔
      ∃ c info, comments.find? hasMarker = some c
        ∧ parseSyncTrackerComment (c.body.getD []) = some info
        ∧ info.lastAuthorIsTeamMember = some false)
    ∧ (comments.find? hasMarker = none → stSignalOf comments = false)
    ∧ (∀ c, comments.find? hasMarker = some c →
        parseSyncTrackerComment (c.body.getD []) = none → stSignalOf comments = false)
    ∧ (∀ c info, comments.find? hasMarker = some c →
        parseSyncTrackerComment (c.body.getD []) = some info →
        info.lastAuthorIsTeamMember ≠ some false → stSignalOf comments = false) := by
  refine ⟨?_, ?_, ?_, ?_⟩
  · rw [stSignalOf]
    rcases hf : comments.find? hasMarker with _ | c
    · simp
    · rcases hp : parseSyncTrackerComment (c.body.getD []) with _ | info
      · simp [hp]
      · dsimp only
        rw [hp]
        simp only [beq_iff_eq]
        constructor
        · intro h
          exact ⟨c, info, rfl, hp, h⟩
        · rintro ⟨c', info', hc', hp', h'⟩
          injection hc' with hcc'
          subst hcc'
          rw [hp] at hp'
          injection hp' with hii
          subst hii
          exact h'
  · intro hf
    rw [stSignalOf, hf]
  · intro c hf hp
    simp [stSignalOf, hf, hp]
  · intro c info hf hp hne
    simp [stSignalOf, hf, hp]
    exact hne

theorem foldl_add_messagesSynced (l : List SyncIssueResult) (n : Nat) :
    l.foldl (fun s r => s + r.messagesSynced) n
      = n + (l.map (fun r => r.messagesSynced)).sum := by
  induction l generalizing n with
  | nil => simp
  | cons x xs ih => simp [ih, Nat.add_assoc]

/-- C9: the batch aggregate reports `issuesProcessed` = the number of
results, `messagesSynced` = the sum of the per-issue counts, `errors` =
the number of failed results, and overall success iff that count is
zero; the driver is the aggregate of the per-issue step fanned out over
the label-filtered issues, each slot a function of its own issue alone,
and replacing one slot changes the error count only through that slot's
own success flag. -/
theorem C9_aggregate_and_independence :
    (∀ results : List SyncIssueResult,
      (aggregateSyncResults results).issuesProcessed = results.length
      ∧ (aggregateSyncResults results).messagesSynced
          = (results.map (fun r => r.messagesSynced)).sum
      ∧ (aggregateSyncResults results).errors
          = results.countP (fun r => !r.success)
      ∧ ((aggregateSyncResults results).success = true
          ↔ (aggregateSyncResults results).errors = 0))
    ∧ (∀ (env : SyncEnv) (fetchedIssues : List IssueInput),
        discordSyncWorkflow env fetchedIssues
          = aggregateSyncResults ((fetchedIssues.filter hasRequiredLabel).map
              fun i => (syncIssueMessagesStep env i).1))
    ∧ (∀ (env : SyncEnv) (issues : List IssueInput) (j : Nat),
        ((issues.filter hasRequiredLabel).map
            fun i => (syncIssueMessagesStep env i).1).get? j
          = ((issues.filter hasRequiredLabel).get? j).map
              fun i => (syncIssueMessagesStep env i).1)
    ∧ (∀ (rs1 rs2 : List SyncIssueResult) (r : SyncIssueResult),
        (aggregateSyncResults (rs1 ++ r :: rs2)).errors
          = (aggregateSyncResults rs1).errors
            + (if r.success = false then 1 else 0)
            + (aggregateSyncResults rs2).errors) := by
  refine ⟨?_, ?_, ?_, ?_⟩
  · intro results
    refine ⟨rfl, ?_, ?_, ?_⟩
    · simpa [aggregateSyncResults] using foldl_add_messagesSynced results 0
    · simp [aggregateSyncResults, List.countP_eq_length_filter]
    · simp [aggregateSyncResults]
  · intro env fetchedIssues
    rfl
  · intro env issues j
    simp [List.get?_eq_getElem?, List.getElem?_map]
  · intro rs1 rs2 r
    by_cases hr : r.success
    · simp [aggregateSyncResults, List.filter_append, hr]
    · simp only [Bool.not_eq_true] at hr
      simp [aggregateSyncResults, List.filter_append, hr]
      omega

/-- No thread reference in the body: the skip result. -/
theorem syncStep_none (env : SyncEnv) (i : IssueInput)
    (h : extractDiscordThreadId i.body = none) :
    syncIssueMessagesStep env i
      = ({ issueNumber := i.number, hasDiscordThread := false, threadId := none,
           messagesSynced := 0, success := true, error := none }, emptyTrace) := by
  rw [syncIssueMessagesStep, h]

/-- A body run that returns normally is the step's result. -/
theorem syncStep_ok (env : SyncEnv) (i : IssueInput) (tid : List Char)
    (r : SyncIssueResult) (tr : SyncTrace)
    (h1 : extractDiscordThreadId i.body = some tid)
    (h2 : syncIssueBody env i tid = .ok (r, tr)) :
    syncIssueMessagesStep env i = (r, tr) := by
  rw [syncIssueMessagesStep, h1]
  dsimp only
  rw [h2]

/-- A raised exception is caught and converted to the error result. -/
theorem syncStep_err (env : SyncEnv) (i : IssueInput) (tid : List Char) (e : List Char)
    (h1 : extractDiscordThreadId i.body = some tid)
    (h2 : syncIssueBody env i tid = .error e) :
    syncIssueMessagesStep env i
      = ({ issueNumber := i.number, hasDiscordThread := true, threadId := some tid,
           messagesSynced := 0, success := false, error := some e }, emptyTrace) := by
  rw [syncIssueMessagesStep, h1]
  dsimp only
  rw [h2]

/-- C1: the per-issue sync step never throws: for every environment and
issue its result is either success-shaped (`success` with no `error`) or
error-shaped (`success=false`, `messagesSynced=0`, a non-null `error`
string); in particular a non-thread channel yields the structured
not-a-thread error result and any exception raised inside the body is
converted into the structured error result carrying its message. -/
theorem C1_sync_step_never_throws (env : SyncEnv) (i : IssueInput) :
    (((syncIssueMessagesStep env i).1.success = true
        ∧ (syncIssueMessagesStep env i).1.error = none)
      ∨ ((syncIssueMessagesStep env i).1.success = false
          ∧ (syncIssueMessagesStep env i).1.messagesSynced = 0
          ∧ ∃ m, (syncIssueMessagesStep env i).1.error = some m))
    ∧ (∀ tid ch, extractDiscordThreadId i.body = some tid →
        env.connectDiscord = .ok () → env.fetchChannel tid = .ok ch →
        ch.isThread = false →
        (syncIssueMessagesStep env i).1
          = { issueNumber := i.number, hasDiscordThread := true, threadId := some tid,
              messagesSynced := 0, success := false,
              error := some ("Channel ".toList ++ tid ++ " is not a thread".toList) })
    ∧ (∀ tid e, extractDiscordThreadId i.body = some tid →
        syncIssueBody env i tid = .error e →
        (syncIssueMessagesStep env i).1
          = { issueNumber := i.number, hasDiscordThread := true, threadId := some tid,
              messagesSynced := 0, success := false, error := some e }) := by
  refine ⟨?_, ?_, ?_⟩
  · rcases hext : extractDiscordThreadId i.body with _ | tid
    · rw [syncStep_none env i hext]
      exact Or.inl ⟨rfl, rfl⟩
    · rcases hb : syncIssueBody env i tid with e | ⟨r, tr⟩
      · rw [syncStep_err env i tid e hext hb]
        exact Or.inr ⟨rfl, rfl, e, rfl⟩
      · rw [syncStep_ok env i tid r tr hext hb]
        exact syncIssueBody_shape env i tid r tr hb
  · intro tid ch hext hc hch ht
    rw [syncStep_ok env i tid _ _ hext (syncIssueBody_not_thread env i tid ch hc hch ht)]
  · intro tid e hext hb
    rw [syncStep_err env i tid e hext hb]

/-- C2: with the issue's comments listed, the follow-up label mutation is
attempted iff the GitHub-comment signal or the sync-tracker signal is
true, the reported reason names exactly the signals that fired, with both
signals false no mutation is attempted, and the label is reported added
iff it was attempted and the label call succeeded. -/
theorem C2_follow_up_or_semantics (env : SyncEnv) (i : IssueInput)
    (comments : List GHComment)
    (hcm : env.listComments i.number = .ok comments) :
    (checkCommentAuthorStep env i).2.labelAttempted
        = ((ghSignalOf env.roster comments).1 || stSignalOf comments)
    ∧ (checkCommentAuthorStep env i).1.needsFollowUp
        = ((ghSignalOf env.roster comments).1 || stSignalOf comments)
    ∧ (checkCommentAuthorStep env i).1.labelReason
        = some (labelReasonOf (ghSignalOf env.roster comments).1 (stSignalOf comments))
    ∧ ((checkCommentAuthorStep env i).1.labelAdded = true ↔
        ((ghSignalOf env.roster comments).1 || stSignalOf comments) = true
        ∧ env.addLabels i.number ["status: needs follow up".toList] = .ok ()) := by
  rw [checkCommentAuthorStep, hcm]
  dsimp only
  by_cases hgs : ((ghSignalOf env.roster comments).1 || stSignalOf comments) = true
  · rw [if_pos hgs]
    rcases ha : env.addLabels i.number ["status: needs follow up".toList] with e | u
    · refine ⟨hgs.symm, hgs.symm, rfl, ?_⟩
      constructor
      · intro hcontra
        exact absurd hcontra (by simp)
      · rintro ⟨_, h2⟩
        exact Except.noConfusion h2
    · refine ⟨hgs.symm, hgs.symm, rfl, ?_⟩
      constructor
      · intro _
        exact ⟨hgs, rfl⟩
      · intro _
        rfl
  · have hoff : ((ghSignalOf env.roster comments).1 || stSignalOf comments) = false := by
      simpa using hgs
    obtain ⟨hg, hs⟩ := Bool.or_eq_false_iff.mp hoff
    rw [if_neg hgs]
    refine ⟨hoff.symm, hoff.symm, ?_, ?_⟩
    · rw [hg, hs]
      rfl
    · constructor
      · intro hcontra
        exact absurd hcontra (by simp)
      · rintro ⟨h1, _⟩
        exact absurd h1 hgs

/-! ### Concrete fixtures for witnesses and counterexamples -/

/-- A thread channel without a guild id. -/
def c3Thread : Channel := { isThread := true, guildId := none }

/-- A tracker comment whose embedded blob is not JSON. -/
def c3Tracker : GHComment :=
  { id := 7, body := some "<!-- DISCORD_SYNC: notjson -->".toList,
    userType := none, userLogin := none }

/-- One eligible Discord message, created at time 5. -/
def c3Msg : DMsg :=
  { id := "m1".toList, authorId := "a1".toList, authorUsername := "alice".toList,
    authorIsBot := false, content := "hi".toList, createdAt := 5, url := "u".toList }

/-- An environment whose externals all succeed, serving the unparsable
tracker comment and the single message above. -/
def c3Env : SyncEnv :=
  { connectDiscord := .ok (), fetchChannel := fun _ => .ok c3Thread,
    listComments := fun _ => .ok [c3Tracker],
    fetchMessages := fun _ _ => .ok [c3Msg],
    fetchGuildMember := fun _ _ => .error "no guild".toList,
    updateComment := fun _ _ => .ok (), createComment := fun _ _ => .ok (),
    addLabels := fun _ _ => .ok (), roster := [] }

/-- An issue updated at time 100 whose body links a Discord thread. -/
def c3Issue : IssueInput :=
  { number := 42, title := "t".toList,
    body := some "see https://discord.com/channels/1/2 please".toList,
    updatedAt := dateToIso 100, htmlUrl := [], labels := [] }

/-- C3 (amended): when the tracker comment is present but its blob is
unparsable, the step treats it as no prior state — the fetch runs with NO
cursor (from the thread start; the issue's `updated_at` plays no part) and
the issue still syncs successfully with an empty existing log. -/
theorem C3_unparsable_tracker_fetches_all (env : SyncEnv) (i : IssueInput)
    (tid : List Char) (ch : Channel) (comments : List GHComment) (c : GHComment)
    (msgs : List DMsg)
    (hext : extractDiscordThreadId i.body = some tid)
    (hc : env.connectDiscord = .ok ())
    (hch : env.fetchChannel tid = .ok ch)
    (ht : ch.isThread = true)
    (hcm : env.listComments i.number = .ok comments)
    (hfind : comments.find? hasMarker = some c)
    (hparse : parseSyncTrackerCommentV2 (c.body.getD []) = none)
    (hmsg : env.fetchMessages tid none = .ok msgs)
    (hcc : ∀ b, env.createComment i.number b = .ok ())
    (huc : ∀ cid b, env.updateComment cid b = .ok ()) :
    parsedStateOf comments = (none, none, none, [])
    ∧ fetchAfterOf comments = none
    ∧ (syncIssueMessagesStep env i).2.fetchedAfter = some none
    ∧ (syncIssueMessagesStep env i).1.success = true
    ∧ (syncIssueMessagesStep env i).1.messagesSynced = (newMessagesOf msgs).length := by
  have hps : parsedStateOf comments = (none, none, none, []) := by
    simp [parsedStateOf, hfind, hparse]
  have hfa : fetchAfterOf comments = none := by
    rw [fetchAfterOf, hps]
  have hmsg' : env.fetchMessages tid (fetchAfterOf comments) = .ok msgs := by
    rw [hfa]
    exact hmsg
  have hrun := syncIssueBody_run env i tid ch comments msgs hc hch ht hcm hmsg' hcc huc
  have hstep := syncStep_ok env i tid _ _ hext hrun
  rw [hstep]
  exact ⟨hps, hfa, by rw [hfa], rfl, rfl⟩

theorem C3_unparsable_tracker_fetches_all_witness :
    parsedStateOf [c3Tracker] = (none, none, none, [])
    ∧ fetchAfterOf [c3Tracker] = none
    ∧ (syncIssueMessagesStep c3Env c3Issue).2.fetchedAfter = some none
    ∧ (syncIssueMessagesStep c3Env c3Issue).1.success = true
    ∧ (syncIssueMessagesStep c3Env c3Issue).1.messagesSynced
        = (newMessagesOf [c3Msg]).length :=
  C3_unparsable_tracker_fetches_all c3Env c3Issue "2".toList c3Thread [c3Tracker]
    c3Tracker [c3Msg] (by decide) rfl rfl rfl rfl (by decide) (by decide) rfl
    (fun b => rfl) (fun cid b => rfl)

/-- C3, counterexample to the claim as frozen: here the tracker comment is
present and unparsable, the issue's `updated_at` is time 100, and the one
thread message was created at time 5 — before `updated_at` — yet the step
fetches with no cursor at all (`fetchedAfter = some none`: all messages
from the thread start, not only those newer than `updated_at`) and syncs
that older message. -/
theorem C3_counterexample :
    (syncIssueMessagesStep c3Env c3Issue).2.fetchedAfter = some none
    ∧ (syncIssueMessagesStep c3Env c3Issue).1.messagesSynced = 1
    ∧ (syncIssueMessagesStep c3Env c3Issue).1.success = true
    ∧ c3Env.listComments c3Issue.number = .ok [c3Tracker]
    ∧ hasMarker c3Tracker = true
    ∧ parseSyncTrackerCommentV2 (c3Tracker.body.getD []) = none
    ∧ c3Issue.updatedAt = dateToIso 100
    ∧ c3Msg.createdAt < 100 := by
  have hrun := syncIssueBody_run c3Env c3Issue "2".toList c3Thread [c3Tracker] [c3Msg]
    rfl rfl rfl rfl rfl (fun b => rfl) (fun cid b => rfl)
  have hstep := syncStep_ok c3Env c3Issue "2".toList _ _ (by decide) hrun
  rw [hstep]
  refine ⟨?_, ?_, rfl, rfl, by decide, by decide, rfl, by decide⟩
  · rw [show fetchAfterOf [c3Tracker] = none from by decide]
  · rw [show (newMessagesOf [c3Msg]).length = 1 from by decide]

theorem C2_follow_up_or_semantics_witness :
    (checkCommentAuthorStep c3Env c3Issue).2.labelAttempted
        = ((ghSignalOf c3Env.roster [c3Tracker]).1 || stSignalOf [c3Tracker])
    ∧ (checkCommentAuthorStep c3Env c3Issue).1.needsFollowUp
        = ((ghSignalOf c3Env.roster [c3Tracker]).1 || stSignalOf [c3Tracker])
    ∧ (checkCommentAuthorStep c3Env c3Issue).1.labelReason
        = some (labelReasonOf (ghSignalOf c3Env.roster [c3Tracker]).1
            (stSignalOf [c3Tracker]))
    ∧ ((checkCommentAuthorStep c3Env c3Issue).1.labelAdded = true ↔
        ((ghSignalOf c3Env.roster [c3Tracker]).1 || stSignalOf [c3Tracker]) = true
        ∧ c3Env.addLabels c3Issue.number ["status: needs follow up".toList] = .ok ()) :=
  C2_follow_up_or_semantics c3Env c3Issue [c3Tracker] rfl

/-- C4, counterexample to the claim as frozen: the blob the in-src writer
`createSyncTrackerComment` embeds parses back to a JSON object whose
`version` field is 1 and which has no `messages` field — the legacy
single-cursor schema, not the current one. -/
theorem C4_counterexample :
    (findTrackerCapture (createSyncTrackerComment "123".toList 5 none)).bind JSONparse
      = some (trackerJsonV1 "123".toList 5 none)
    ∧ jlookup (trackerJsonV1 "123".toList 5 none) "version".toList = some (.jnum 1)
    ∧ jlookup (trackerJsonV1 "123".toList 5 none) "messages".toList = none := by
  refine ⟨?_, rfl, rfl⟩
  rw [findTracker_createV1 "123".toList 5 none (by decide)]
  exact JSONparse_jrender _

/-- C4 (amended): the in-src writer `createSyncTrackerComment` always
embeds a version-1 single-cursor blob with no `messages` field; the
current-format writer `createDiscordSyncComment` (modelled from the spec,
its source not being among the files) always embeds a version-2 blob
carrying the full message log.  The current schema version is therefore
written only by the latter; the in-src codec's own writer emits v1. -/
theorem C4_version_written (id : List Char) (t : Nat) (b : Option Bool)
    (hid : '}' ∉ id) :
    ((findTrackerCapture (createSyncTrackerComment id t b)).bind JSONparse
        = some (trackerJsonV1 id t b)
      ∧ jlookup (trackerJsonV1 id t b) "version".toList = some (.jnum 1)
      ∧ jlookup (trackerJsonV1 id t b) "messages".toList = none)
    ∧ (∀ (url : List Char) (msgs : List SyncedMessage) (latm : Option Bool) (now : Nat),
        (∀ m ∈ msgs, msgNoBrace m) →
        (findTrackerCapture (createDiscordSyncComment url msgs latm now)).bind JSONparse
            = some (trackerJsonV2 msgs latm now)
          ∧ jlookup (trackerJsonV2 msgs latm now) "version".toList = some (.jnum 2)
          ∧ jlookup (trackerJsonV2 msgs latm now) "messages".toList
              = some (.jarr (msgs.map msgJson))) := by
  constructor
  · refine ⟨?_, ?_, ?_⟩
    · rw [findTracker_createV1 id t b hid]
      exact JSONparse_jrender _
    · cases b <;> rfl
    · cases b <;> rfl
  · intro url msgs latm now hmsgs
    refine ⟨?_, ?_, ?_⟩
    · rw [findTracker_createV2 url msgs latm now hmsgs]
      exact JSONparse_jrender _
    · cases latm <;> rfl
    · cases latm <;> rfl

theorem C4_version_written_witness :
    ((findTrackerCapture (createSyncTrackerComment "9".toList 3 (some true))).bind JSONparse
        = some (trackerJsonV1 "9".toList 3 (some true))
      ∧ jlookup (trackerJsonV1 "9".toList 3 (some true)) "version".toList
          = some (.jnum 1)
      ∧ jlookup (trackerJsonV1 "9".toList 3 (some true)) "messages".toList = none)
    ∧ (∀ (url : List Char) (msgs : List SyncedMessage) (latm : Option Bool) (now : Nat),
        (∀ m ∈ msgs, msgNoBrace m) →
        (findTrackerCapture (createDiscordSyncComment url msgs latm now)).bind JSONparse
            = some (trackerJsonV2 msgs latm now)
          ∧ jlookup (trackerJsonV2 msgs latm now) "version".toList = some (.jnum 2)
          ∧ jlookup (trackerJsonV2 msgs latm now) "messages".toList
              = some (.jarr (msgs.map msgJson))) :=
  C4_version_written "9".toList 3 (some true) (by decide)

/-- C5: the v2-aware parser (modelled from the spec, its source not being
among the files) reads both schema versions: a freshly written version-1
blob parses without error, all cursor fields intact, with `messages`
absent — normalized to the empty log by the caller's `|| []` — and a
freshly written version-2 blob's `messages` array comes back verbatim. -/
theorem C5_parser_reads_both_versions (id : List Char) (t : Nat) (b : Option Bool)
    (hid : '}' ∉ id) :
    parseSyncTrackerCommentV2 (createSyncTrackerComment id t b)
        = some ⟨some id, some t, b, none⟩
    ∧ (∀ info, parseSyncTrackerCommentV2 (createSyncTrackerComment id t b) = some info
        → info.messages.getD [] = [])
    ∧ (∀ (url : List Char) (msgs : List SyncedMessage) (latm : Option Bool) (now : Nat),
        (∀ m ∈ msgs, msgNoBrace m) →
        parseSyncTrackerCommentV2 (createDiscordSyncComment url msgs latm now)
          = some ⟨some ((msgs.getLast?).elim [] fun m => m.id),
              newDateFromChars ((msgs.getLast?).elim (dateToIso now) fun m => m.timestamp),
              latm, some msgs⟩) := by
  refine ⟨parseV2_create_v1 id t b hid, ?_, ?_⟩
  · intro info hinfo
    rw [parseV2_create_v1 id t b hid] at hinfo
    injection hinfo with h
    rw [← h]
    rfl
  · intro url msgs latm now hmsgs
    exact parseV2_createDiscord url msgs latm now hmsgs

theorem C5_parser_reads_both_versions_witness :
    parseSyncTrackerCommentV2 (createSyncTrackerComment "77".toList 9 none)
        = some ⟨some "77".toList, some 9, none, none⟩
    ∧ (∀ info, parseSyncTrackerCommentV2 (createSyncTrackerComment "77".toList 9 none)
        = some info → info.messages.getD [] = [])
    ∧ (∀ (url : List Char) (msgs : List SyncedMessage) (latm : Option Bool) (now : Nat),
        (∀ m ∈ msgs, msgNoBrace m) →
        parseSyncTrackerCommentV2 (createDiscordSyncComment url msgs latm now)
          = some ⟨some ((msgs.getLast?).elim [] fun m => m.id),
              newDateFromChars ((msgs.getLast?).elim (dateToIso now) fun m => m.timestamp),
              latm, some msgs⟩) :=
  C5_parser_reads_both_versions "77".toList 9 none (by decide)

/-- Whatever the role re-check does to the flag, the merged log is the
existing messages followed by the converted new ones. -/
theorem stepStateOf_snd (env : SyncEnv) (thread : Channel) (previous : Option Bool)
    (existing : List SyncedMessage) (newMessages : List DMsg) :
    (stepStateOf env thread previous existing newMessages).2
      = existing ++ newMessages.map toSyncedMessage := by
  rw [stepStateOf]
  split
  · rename_i hl
    have hnil : newMessages = [] := by
      cases newMessages with
      | nil => rfl
      | cons x xs => exact absurd hl (by simp)
    subst hnil
    simp
  · rfl

/-- C7: on a successful run the log handed to the writer is exactly the
previously persisted messages followed by the converted new ones — the
fetched messages with non-empty content and a non-bot author, sorted
ascending by creation time — the reported count is the number of new
messages, and the writer is skipped exactly when the merged log is
empty. -/
theorem C7_appended_messages (env : SyncEnv) (i : IssueInput) (tid : List Char)
    (ch : Channel) (comments : List GHComment) (msgs : List DMsg)
    (hext : extractDiscordThreadId i.body = some tid)
    (hc : env.connectDiscord = .ok ())
    (hch : env.fetchChannel tid = .ok ch)
    (ht : ch.isThread = true)
    (hcm : env.listComments i.number = .ok comments)
    (hmsg : env.fetchMessages tid (fetchAfterOf comments) = .ok msgs)
    (hcc : ∀ b, env.createComment i.number b = .ok ())
    (huc : ∀ cid b, env.updateComment cid b = .ok ()) :
    newMessagesOf msgs = sortByCreatedAt (msgs.filter eligibleMsg)
    ∧ List.Pairwise (fun a b => a.createdAt ≤ b.createdAt) (newMessagesOf msgs)
    ∧ (newMessagesOf msgs).Perm (msgs.filter eligibleMsg)
    ∧ (stepStateOf env ch (parsedStateOf comments).2.2.1 (parsedStateOf comments).2.2.2
          (newMessagesOf msgs)).2
        = (parsedStateOf comments).2.2.2 ++ (newMessagesOf msgs).map toSyncedMessage
    ∧ (syncIssueMessagesStep env i).1.messagesSynced = (newMessagesOf msgs).length
    ∧ (syncIssueMessagesStep env i).2.wroteComment
        = wroteOf (stepStateOf env ch (parsedStateOf comments).2.2.1
            (parsedStateOf comments).2.2.2 (newMessagesOf msgs))
            (parsedStateOf comments).2.1
    ∧ (∀ (st : Option Bool × List SyncedMessage) (cid : Option Nat),
        wroteOf st cid = none ↔ st.2 = []) := by
  have hrun := syncIssueBody_run env i tid ch comments msgs hc hch ht hcm hmsg hcc huc
  have hstep := syncStep_ok env i tid _ _ hext hrun
  rw [hstep]
  refine ⟨rfl, ?_, ?_, stepStateOf_snd env ch _ _ _, rfl, rfl, ?_⟩
  · haveI ht1 : IsTotal DMsg (fun a b => a.createdAt ≤ b.createdAt) :=
      ⟨fun a b => Nat.le_total a.createdAt b.createdAt⟩
    haveI ht2 : IsTrans DMsg (fun a b => a.createdAt ≤ b.createdAt) :=
      ⟨fun a b c hab hbc => Nat.le_trans hab hbc⟩
    exact List.sorted_insertionSort _ _
  · exact List.perm_insertionSort _ _
  · intro st cid
    obtain ⟨flag, lst⟩ := st
    rw [wroteOf]
    cases lst with
    | nil => simp
    | cons m ms => simp

theorem C7_appended_messages_witness :
    newMessagesOf [c3Msg] = sortByCreatedAt ([c3Msg].filter eligibleMsg)
    ∧ List.Pairwise (fun a b => a.createdAt ≤ b.createdAt) (newMessagesOf [c3Msg])
    ∧ (newMessagesOf [c3Msg]).Perm ([c3Msg].filter eligibleMsg)
    ∧ (stepStateOf c3Env c3Thread (parsedStateOf [c3Tracker]).2.2.1
          (parsedStateOf [c3Tracker]).2.2.2 (newMessagesOf [c3Msg])).2
        = (parsedStateOf [c3Tracker]).2.2.2 ++ (newMessagesOf [c3Msg]).map toSyncedMessage
    ∧ (syncIssueMessagesStep c3Env c3Issue).1.messagesSynced
        = (newMessagesOf [c3Msg]).length
    ∧ (syncIssueMessagesStep c3Env c3Issue).2.wroteComment
        = wroteOf (stepStateOf c3Env c3Thread (parsedStateOf [c3Tracker]).2.2.1
            (parsedStateOf [c3Tracker]).2.2.2 (newMessagesOf [c3Msg]))
            (parsedStateOf [c3Tracker]).2.1
    ∧ (∀ (st : Option Bool × List SyncedMessage) (cid : Option Nat),
        wroteOf st cid = none ↔ st.2 = []) :=
  C7_appended_messages c3Env c3Issue "2".toList c3Thread [c3Tracker] [c3Msg]
    (by decide) rfl rfl rfl rfl rfl (fun b => rfl) (fun cid b => rfl)

end Mastra
